import Mathlib

/-!
Shallow embedding of the bidirectional Notion sync engine in
`scripts/notion-sync.js` (jobs / contacts / tasks tracker).  Pure data is
translated directly; stateful loops become explicit state-passing step
functions; the SHA-256 digest is an opaque parameter `digest : String → String`
because every decision in the engine uses it only as a black box, while the
serialization that feeds it (`JSON.stringify(item, Object.keys(item).sort())`)
is modelled faithfully, including the array-replacer semantics that filter
object keys at every nesting depth.
-/

namespace NotionSync

/-! ## JavaScript truthiness helpers -/

/-- Truthiness of a JS string: falsy iff empty. -/
def jsTruthyS (s : String) : Bool := decide (s ≠ "")

/-- Truthiness of a nullable JS string (`null`/`undefined` modelled as `none`). -/
def jsTruthyOpt : Option String → Bool
  | some s => jsTruthyS s
  | none => false

/-- JS `a || b` on nullable strings: keep `a` when truthy, else `b`. -/
def jsOrOpt (a b : Option String) : Option String :=
  if jsTruthyOpt a then a else b

/-- JS `a || d` with a plain-string default. -/
def jsOrD (a : Option String) (d : String) : String :=
  match a with
  | some s => if jsTruthyS s then s else d
  | none => d

/-- JS `s || null`: empty string becomes `null`. -/
def strOrNull (s : String) : Option String :=
  if jsTruthyS s then some s else none

/-! ## JSON values and `JSON.stringify` with an array replacer

`hashItem` in the source is
`sha256(JSON.stringify(item, Object.keys(item).sort())).hex.slice(0,16)`.
Per ECMA-262, an array replacer is a `PropertyList` that both orders and
filters the serialized keys of EVERY object in the tree (array elements are
always serialized).  We embed that serializer; the digest itself stays an
opaque `String → String` parameter. -/

mutual

inductive JsVal where
  | nul : JsVal
  | bool (b : Bool) : JsVal
  | str (s : String) : JsVal
  | arr (elems : JsArr) : JsVal
  | obj (fields : JsFields) : JsVal

inductive JsArr where
  | nil : JsArr
  | cons (v : JsVal) (rest : JsArr) : JsArr

inductive JsFields where
  | nil : JsFields
  | cons (key : String) (v : JsVal) (rest : JsFields) : JsFields

end

def arrOf : List JsVal → JsArr
  | [] => .nil
  | v :: rest => .cons v (arrOf rest)

def fieldsOf : List (String × JsVal) → JsFields
  | [] => .nil
  | (k, v) :: rest => .cons k v (fieldsOf rest)

def fieldKeys : JsFields → List String
  | .nil => []
  | .cons k _ rest => k :: fieldKeys rest

/-- JSON string escaping for the characters that can occur in the records. -/
def jsonEscapeChar (c : Char) : String :=
  if c = '"' then "\\\""
  else if c = '\\' then "\\\\"
  else if c = '\n' then "\\n"
  else if c = '\r' then "\\r"
  else if c = '\t' then "\\t"
  else String.singleton c

def jsonQuote (s : String) : String :=
  "\"" ++ String.join (s.toList.map jsonEscapeChar) ++ "\""

def commaJoin (parts : List String) : String := String.intercalate "," parts

/-- Lexicographic strict comparison of character lists.  JS compares strings
by UTF-16 code units; over the ASCII strings the engine compares (ISO
timestamps, record keys, dates) this coincides with codepoint order. -/
def charsLt : List Char → List Char → Bool
  | [], [] => false
  | [], _ :: _ => true
  | _ :: _, [] => false
  | c :: cs, d :: ds => if c < d then true else if d < c then false else charsLt cs ds

def strLtB (a b : String) : Bool := charsLt a.toList b.toList

def charsLe : List Char → List Char → Bool
  | [], _ => true
  | _ :: _, [] => false
  | c :: cs, d :: ds => if c < d then true else if d < c then false else charsLe cs ds

def strLeB (a b : String) : Bool := charsLe a.toList b.toList

/-- Insertion sort on strings (JS `Array.prototype.sort` default comparator:
lexicographic by code units). -/
def insertStr (s : String) : List String → List String
  | [] => [s]
  | t :: rest => if strLeB s t then s :: t :: rest else t :: insertStr s rest

def sortStrings : List String → List String
  | [] => []
  | s :: rest => insertStr s (sortStrings rest)

/-- Insertion sort of object fields by key. -/
def insertField (k : String) (v : JsVal) : JsFields → JsFields
  | .nil => .cons k v .nil
  | .cons k2 v2 rest =>
      if strLeB k k2 then .cons k v (.cons k2 v2 rest)
      else .cons k2 v2 (insertField k v rest)

def sortFields : JsFields → JsFields
  | .nil => .nil
  | .cons k v rest => insertField k v (sortFields rest)

mutual

/-- Recursively sort the fields of every object by key. -/
def sortDeep : JsVal → JsVal
  | .nul => .nul
  | .bool b => .bool b
  | .str s => .str s
  | .arr es => .arr (sortDeepA es)
  | .obj fs => .obj (sortFields (sortDeepF fs))

def sortDeepA : JsArr → JsArr
  | .nil => .nil
  | .cons v rest => .cons (sortDeep v) (sortDeepA rest)

def sortDeepF : JsFields → JsFields
  | .nil => .nil
  | .cons k v rest => .cons k (sortDeep v) (sortDeepF rest)

end

mutual

/-- Serializer core: emit fields in their stored order, keeping only keys that
occur in the replacer list `K`; array elements are always serialized.  Applied
after `sortDeep`, this coincides with ECMA-262 `JSON.stringify(value, K)` for a
sorted replacer list `K` and objects with pairwise-distinct keys: the replacer
semantics emit, for every object in the tree, exactly the present keys of `K`
in `K`'s (sorted) order. -/
def serVal (K : List String) : JsVal → String
  | .nul => "null"
  | .bool b => cond b "true" "false"
  | .str s => jsonQuote s
  | .arr es => "[" ++ commaJoin (serArrS K es) ++ "]"
  | .obj fs => "\x7b" ++ commaJoin (serFieldsS K fs) ++ "\x7d"

def serArrS (K : List String) : JsArr → List String
  | .nil => []
  | .cons v rest => serVal K v :: serArrS K rest

def serFieldsS (K : List String) : JsFields → List String
  | .nil => []
  | .cons k v rest =>
      if K.contains k then (jsonQuote k ++ ":" ++ serVal K v) :: serFieldsS K rest
      else serFieldsS K rest

end

/-- `JSON.stringify(item, Object.keys(item).sort())` for a JS object given as
its field list. -/
def canonicalSerialize (fields : JsFields) : String :=
  serVal (sortStrings (fieldKeys fields)) (sortDeep (JsVal.obj fields))

/-- `hashItem` with the truncated-SHA-256 digest abstracted as `digest`: every
use in the engine treats the digest as a black-box fingerprint of the
canonical serialization. -/
def hashItem (digest : String → String) (fields : JsFields) : String :=
  digest (canonicalSerialize fields)

/-! ## Entity records (shape of the objects the engine constructs) -/

structure Interaction where
  date : String
  type : String
  summary : String
deriving DecidableEq, Repr

structure Contact where
  id : Option String := none
  name : String
  company : Option String := none
  title : Option String := none
  email : Option String := none
  linkedin : Option String := none
  source : Option String := none
  introducedBy : Option String := none
  added : Option String := none
  interactions : List Interaction := []
deriving DecidableEq, Repr

structure Task where
  id : Option String := none
  task : String
  due : Option String := none
  linkedContacts : List String := []
  linkedJobs : List String := []
  status : String
  created : Option String := none
  completed : Option String := none
deriving DecidableEq, Repr

structure Job where
  company : String
  role : String
  url : Option String := none
  added : Option String := none
  updated : Option String := none
  stage : Option String := none
  next : Option String := none
  outcome : Option String := none
  reason : Option String := none
  closed : Option String := none
  folder : Option String := none
deriving DecidableEq, Repr

/-! ## JS-object views of the records, as the engine constructs them -/

def optStrJ : Option String → JsVal
  | some s => .str s
  | none => .nul

def interactionToJs (i : Interaction) : JsVal :=
  .obj (fieldsOf
    [("date", .str i.date), ("type", .str i.type), ("summary", .str i.summary)])

def contactToJs (c : Contact) : JsFields :=
  fieldsOf
    [("id", optStrJ c.id), ("name", .str c.name), ("company", optStrJ c.company),
     ("title", optStrJ c.title), ("email", optStrJ c.email),
     ("linkedin", optStrJ c.linkedin), ("source", optStrJ c.source),
     ("introducedBy", optStrJ c.introducedBy), ("added", optStrJ c.added),
     ("interactions", .arr (arrOf (c.interactions.map interactionToJs)))]

def taskToJs (t : Task) : JsFields :=
  fieldsOf
    ([("id", optStrJ t.id), ("task", .str t.task), ("due", optStrJ t.due),
      ("linkedContacts", .arr (arrOf (t.linkedContacts.map JsVal.str))),
      ("linkedJobs", .arr (arrOf (t.linkedJobs.map JsVal.str))),
      ("status", .str t.status), ("created", optStrJ t.created)] ++
     (match t.completed with
      | some d => [("completed", JsVal.str d)]
      | none => []))

def jobToJs (j : Job) : JsFields :=
  fieldsOf
    ([("company", .str j.company), ("role", .str j.role), ("url", optStrJ j.url),
      ("added", optStrJ j.added), ("updated", optStrJ j.updated)] ++
     (match j.stage with | some s => [("stage", JsVal.str s)] | none => []) ++
     (match j.next with | some s => [("next", JsVal.str s)] | none => []) ++
     (match j.outcome with | some s => [("outcome", JsVal.str s)] | none => []) ++
     (match j.reason with | some s => [("reason", JsVal.str s)] | none => []) ++
     (match j.closed with | some s => [("closed", JsVal.str s)] | none => []) ++
     (match j.folder with | some s => [("folder", JsVal.str s)] | none => []))

/-! ## Notion page property model and getters -/

/-- A Notion property value as returned by the API; the constructor encodes
the `type` tag, the payload models the nullable inner object. -/
inductive NProp where
  | title (texts : List String)
  | richText (texts : List String)
  | select (name : Option String)
  | date (start : Option String)
  | checkbox (b : Bool)
  | url (u : Option String)
  | email (e : Option String)
deriving DecidableEq, Repr

/-- First-match association lookup (JS object property access). -/
def alGet {β : Type} : List (String × β) → String → Option β
  | [], _ => none
  | kv :: rest, k => if kv.1 = k then some kv.2 else alGet rest k

def getNotionText : Option NProp → String
  | some (.title ts) => String.join ts
  | some (.richText ts) => String.join ts
  | _ => ""

def getNotionSelect : Option NProp → Option String
  | some (.select name) => name
  | _ => none

/-- `prop.date.start || null`. -/
def getNotionDate : Option NProp → Option String
  | some (.date st) =>
      (match st with
       | some s => if jsTruthyS s then some s else none
       | none => none)
  | _ => none

def getNotionCheckbox : Option NProp → Bool
  | some (.checkbox b) => b
  | _ => false

def getNotionUrl : Option NProp → Option String
  | some (.url u) => u
  | _ => none

def getNotionEmail : Option NProp → Option String
  | some (.email e) => e
  | _ => none

structure NotionPage where
  id : String
  lastEditedTime : String
  properties : List (String × NProp)
deriving DecidableEq, Repr

/-! ## Interaction parsing and append-only merge -/

/-- JS `\s` over the characters that can survive a `split('\n')`. -/
def isSpaceC (c : Char) : Bool :=
  c = ' ' ∨ c = '\t' ∨ c = '\r' ∨ c = '\x0c' ∨ c = '\x0b'

/-- Whitespace trimmed by `String.prototype.trim`. -/
def isTrimC (c : Char) : Bool := isSpaceC c ∨ c = '\n'

/-- JS `s.split(sep)` for a one-character separator. -/
def splitOnCharGo (sep : Char) (acc : List Char) : List Char → List String
  | [] => [String.mk acc.reverse]
  | c :: rest =>
      if c = sep then String.mk acc.reverse :: splitOnCharGo sep [] rest
      else splitOnCharGo sep (c :: acc) rest

def splitOnChar (sep : Char) (s : String) : List String :=
  splitOnCharGo sep [] s.toList

/-- JS `s.trim()`. -/
def trimJs (s : String) : String :=
  String.mk (((s.toList.dropWhile isTrimC).reverse.dropWhile isTrimC).reverse)

/-- JS `\w` = `[A-Za-z0-9_]`. -/
def isWordC (c : Char) : Bool :=
  ('a' ≤ c ∧ c ≤ 'z') ∨ ('A' ≤ c ∧ c ≤ 'Z') ∨ ('0' ≤ c ∧ c ≤ '9') ∨ c = '_'

def isDigitC (c : Char) : Bool := '0' ≤ c ∧ c ≤ '9'

/-- Match of `/^\[(\d{4}-\d{2}-\d{2})\]\s+(\w+):\s+(.+)$/` against a trimmed
line.  The regex is deterministic on trimmed input: each `\s+`/`\w+` run is
maximal-munch (the follow sets are disjoint), and `(.+)$` takes the nonempty
remainder. -/
def parseLine (line : String) : Option Interaction :=
  match (trimJs line).toList with
  | '[' :: a :: b :: c :: d :: '-' :: e :: f :: '-' :: g :: h :: ']' :: rest =>
      if [a, b, c, d, e, f, g, h].all isDigitC then
        let r1 := rest.dropWhile isSpaceC
        if rest.takeWhile isSpaceC ≠ [] then
          let w := r1.takeWhile isWordC
          let r2 := r1.dropWhile isWordC
          if w ≠ [] then
            match r2 with
            | ':' :: r3 =>
                let r4 := r3.dropWhile isSpaceC
                if r3.takeWhile isSpaceC ≠ [] ∧ r4 ≠ [] then
                  some ⟨String.mk [a, b, c, d, '-', e, f, '-', g, h],
                        String.mk w, String.mk r4⟩
                else none
            | _ => none
          else none
        else none
      else none
  | _ => none

/-- `parseInteractionsFromNotes`: parse complete `[date] type: summary` lines. -/
def parseInteractionsFromNotes (text : String) : List Interaction :=
  if ¬ jsTruthyS text then []
  else (splitOnChar '\n' text).filterMap parseLine

/-- Composite duplicate-detection key `date|type|summary`. -/
def ikey (i : Interaction) : String := i.date ++ "|" ++ i.type ++ "|" ++ i.summary

/-- The loop body of `mergeInteractions`: append parsed entries whose key is
not yet in the seen set (which also grows with each appended entry). -/
def addNew (seen : List String) : List Interaction → List Interaction
  | [] => []
  | i :: rest =>
      if ikey i ∈ seen then addNew seen rest
      else i :: addNew (ikey i :: seen) rest

/-- Stable insertion by date, matching the (stable) JS sort with comparator
`a.date.localeCompare(b.date)`. -/
def insertByDate (i : Interaction) : List Interaction → List Interaction
  | [] => [i]
  | j :: rest =>
      if strLeB i.date j.date then i :: j :: rest else j :: insertByDate i rest

def sortByDate : List Interaction → List Interaction
  | [] => []
  | i :: rest => insertByDate i (sortByDate rest)

/-- `mergeInteractions`: append-only union keyed by (date, type, summary),
sorted by date — except that when nothing parses the existing list is
returned unchanged. -/
def mergeInteractions (existing : List Interaction) (notesText : String) :
    List Interaction :=
  let parsed := parseInteractionsFromNotes notesText
  if parsed.isEmpty then existing
  else sortByDate (existing ++ addNew (existing.map ikey) parsed)

/-! ## Notion → local record converters -/

/-- `name.toLowerCase().replace(/\s+/g,'-').replace(/[^a-z0-9-]/g,'')`,
collapsing each whitespace run to a single dash (ASCII case folding). -/
def collapseWsGo : Bool → List Char → List Char
  | _, [] => []
  | prevSpace, c :: rest =>
      if isSpaceC c ∨ c = '\n' then
        if prevSpace then collapseWsGo true rest
        else '-' :: collapseWsGo true rest
      else c :: collapseWsGo false rest

def contactSlug (name : String) : String :=
  let lowered := name.toList.map Char.toLower
  let dashed := collapseWsGo false lowered
  String.mk (dashed.filter (fun c => ('a' ≤ c ∧ c ≤ 'z') ∨ isDigitC c ∨ c = '-'))

def notionPropertiesToJob (props : List (String × NProp)) : Job × String :=
  let job0 : Job := {
    company := getNotionText (alGet props "Company"),
    role := getNotionText (alGet props "Role"),
    url := getNotionUrl (alGet props "URL"),
    added := getNotionDate (alGet props "Added"),
    updated := getNotionDate (alGet props "Updated") }
  let stage := getNotionSelect (alGet props "Stage")
  let j1 := if jsTruthyOpt stage then { job0 with stage := stage } else job0
  let next := getNotionText (alGet props "Next Action")
  let j2 := if jsTruthyS next then { j1 with next := some next } else j1
  let outcome := getNotionSelect (alGet props "Outcome")
  let j3 := if jsTruthyOpt outcome then { j2 with outcome := outcome } else j2
  let reason := getNotionText (alGet props "Skip Reason")
  let j4 := if jsTruthyS reason then { j3 with reason := some reason } else j3
  let closed := getNotionDate (alGet props "Closed")
  let j5 := if jsTruthyOpt closed then { j4 with closed := closed } else j4
  let folder := getNotionText (alGet props "Folder")
  let j6 := if jsTruthyS folder then { j5 with folder := some folder } else j5
  (j6, jsOrD (getNotionSelect (alGet props "Status")) "Active")

def notionPropertiesToContact (today : String) (props : List (String × NProp))
    (existing : Option Contact) : Contact :=
  let c0 : Contact := {
    id := jsOrOpt (existing.bind (·.id)) none,
    name := getNotionText (alGet props "Name"),
    company := strOrNull (getNotionText (alGet props "Company")),
    title := strOrNull (getNotionText (alGet props "Title")),
    email := jsOrOpt (getNotionEmail (alGet props "Email")) none,
    linkedin := jsOrOpt (getNotionUrl (alGet props "LinkedIn")) none,
    source := strOrNull (getNotionText (alGet props "Source")),
    introducedBy := jsOrOpt (existing.bind (·.introducedBy)) none,
    added := some (jsOrD (jsOrOpt (getNotionDate (alGet props "Added"))
      (existing.bind (·.added))) today),
    interactions := (existing.map (·.interactions)).getD [] }
  let c1 := if ¬ jsTruthyOpt c0.id then { c0 with id := some (contactSlug c0.name) } else c0
  let notesText := getNotionText (alGet props "Notes")
  if jsTruthyS notesText then
    { c1 with interactions := mergeInteractions c1.interactions notesText }
  else c1

/-- `genId` stands for the generated `task-${Date.now().toString(36)}`. -/
def notionPropertiesToTask (today genId : String) (props : List (String × NProp))
    (existing : Option Task) : Task :=
  let done := getNotionCheckbox (alGet props "Done")
  let t0 : Task := {
    id := jsOrOpt (existing.bind (·.id)) none,
    task := getNotionText (alGet props "Task"),
    due := jsOrOpt (getNotionDate (alGet props "Due")) none,
    linkedContacts := (existing.map (·.linkedContacts)).getD [],
    linkedJobs := (existing.map (·.linkedJobs)).getD [],
    status := if done then "completed" else "pending",
    created := some (jsOrD (jsOrOpt (getNotionDate (alGet props "Created"))
      (existing.bind (·.created))) today) }
  let t1 := if done then { t0 with completed := some (jsOrD (existing.bind (·.completed)) today) } else t0
  if ¬ jsTruthyOpt t1.id then { t1 with id := some genId } else t1

/-! ## Sync state (`.notion-sync-map.json`) and association-map operations

JS objects with unique string keys are modelled as association lists:
assignment replaces an existing key in place or appends a new one, `delete`
removes it, lookups take the first match. -/

structure RevEntry where
  type : String
  key : String
deriving DecidableEq, Repr

structure SyncEntry where
  notionId : Option String := none
  localHash : Option String := none
  notionLastEdited : Option String := none
  company : Option String := none
  role : Option String := none
deriving DecidableEq, Repr

structure SyncMap where
  lastSyncTime : Option String
  jobs : List (String × SyncEntry)
  contacts : List (String × SyncEntry)
  tasks : List (String × SyncEntry)
  notionToLocal : List (String × RevEntry)
deriving DecidableEq, Repr

def alReplace {β : Type} : List (String × β) → String → β → List (String × β)
  | [], _, _ => []
  | kv :: rest, k, v =>
      if kv.1 = k then (k, v) :: alReplace rest k v else kv :: alReplace rest k v

/-- JS `obj[k] = v`: replace in place when the key exists, else append. -/
def alSet {β : Type} (m : List (String × β)) (k : String) (v : β) :
    List (String × β) :=
  if (alGet m k).isSome then alReplace m k v else m ++ [(k, v)]

/-- JS `delete obj[k]`. -/
def alErase {β : Type} : List (String × β) → String → List (String × β)
  | [], _ => []
  | kv :: rest, k => if kv.1 = k then alErase rest k else kv :: alErase rest k

/-- In-place field mutation of the entry stored under `k`. -/
def alUpdate {β : Type} (m : List (String × β)) (k : String) (f : β → β) :
    List (String × β) :=
  m.map (fun kv => if kv.1 = k then (kv.1, f kv.2) else kv)

/-- `syncEntry.notionLastEdited = time` on the entry under `k`. -/
def touchEdited (tmap : List (String × SyncEntry)) (k time : String) :
    List (String × SyncEntry) :=
  alUpdate tmap k (fun e => { e with notionLastEdited := some time })

/-- Resolution of a page id through the reverse index and the per-type map:
`some (key, entry)` exactly when the reverse entry exists with the right type,
its key is truthy, and the per-type map has an entry for that key (the code's
`existingKey`/`syncEntry` pair being non-null). -/
def entryLookup (rev : List (String × RevEntry)) (tyName : String)
    (tmap : List (String × SyncEntry)) (pageId : String) :
    Option (String × SyncEntry) :=
  match alGet rev pageId with
  | some r =>
      if r.type = tyName then
        if jsTruthyS r.key then
          match alGet tmap r.key with
          | some e => some (r.key, e)
          | none => none
        else none
      else none
  | none => none

/-- `!syncEntry.notionLastEdited || pageEdited > syncEntry.notionLastEdited`. -/
def notionChangedB (stored : Option String) (pageEdited : String) : Bool :=
  if jsTruthyOpt stored then strLtB (stored.getD "") pageEdited else true

/-! ## Tracker (jobs document) helpers -/

structure Tracker where
  active : List Job
  skipped : List Job
  closed : List Job
deriving DecidableEq, Repr

def getJobLocalId (job : Job) (status : String) : String :=
  status ++ ":" ++ job.company ++ ":" ++ job.role

def arrayMap (s : String) : Option String :=
  if s = "Active" then some "active"
  else if s = "Skipped" then some "skipped"
  else if s = "Closed" then some "closed"
  else none

/-- `arrayMap[notionStatus] || 'active'`. -/
def arrayMapD (s : String) : String := (arrayMap s).getD "active"

def bucketOf (t : Tracker) (name : String) : List Job :=
  if name = "active" then t.active
  else if name = "skipped" then t.skipped
  else if name = "closed" then t.closed
  else []

def findJobIdx (company role : String) : List Job → Nat → Option (Nat × Job)
  | [], _ => none
  | j :: rest, i =>
      if j.company = company ∧ j.role = role then some (i, j)
      else findJobIdx company role rest (i + 1)

/-- `findJobInTracker`: split the composite key on `:` (destructuring keeps
the first three parts), map the status to a bucket, and find by company+role. -/
def findJobInTracker (t : Tracker) (localKey : String) :
    Option (String × Nat × Job) :=
  let parts := splitOnChar ':' localKey
  match arrayMap (parts.headD "") with
  | none => none
  | some arrayName =>
      match parts[1]?, parts[2]? with
      | some company, some role =>
          (match findJobIdx company role (bucketOf t arrayName) 0 with
           | some (i, j) => some (arrayName, i, j)
           | none => none)
      | _, _ => none

def removeFromBucket (t : Tracker) (name : String) (i : Nat) : Tracker :=
  if name = "active" then { t with active := t.active.eraseIdx i }
  else if name = "skipped" then { t with skipped := t.skipped.eraseIdx i }
  else if name = "closed" then { t with closed := t.closed.eraseIdx i }
  else t

def setInBucket (t : Tracker) (name : String) (i : Nat) (j : Job) : Tracker :=
  if name = "active" then { t with active := t.active.set i j }
  else if name = "skipped" then { t with skipped := t.skipped.set i j }
  else if name = "closed" then { t with closed := t.closed.set i j }
  else t

def bucketPush (t : Tracker) (name : String) (j : Job) : Tracker :=
  if name = "active" then { t with active := t.active ++ [j] }
  else if name = "skipped" then { t with skipped := t.skipped ++ [j] }
  else if name = "closed" then { t with closed := t.closed ++ [j] }
  else t

def stageToDirectory (stage : Option String) (status : String) : String :=
  if status = "Closed" ∨ status = "Rejected" ∨ status = "Withdrew" ∨ status = "Expired" then
    "Rejected"
  else if jsTruthyOpt stage = false ∨ stage = some "Sourced" then "InProgress"
  else "Applied"

/-- `path.basename`: last nonempty `/`-separated component (the inputs the
engine passes contain no trailing slash pathology). -/
def basenameJs (p : String) : String :=
  match (((splitOnChar '/' p)).filter (fun s => s ≠ "")).getLast? with
  | some b => b
  | none => p

/-! ## Pull phase, per fetched page (the bodies of the `for (page of pages)`
loops of `pullJobs` / `pullContacts` / `pullTasks`).  `full` is `--full`,
`dryRun` is `--dry-run`, `today` models `new Date().toISOString().slice(0,10)`.
Filesystem effects of the folder move (`existsSync`/`mkdirSync`/`renameSync`)
touch only the disk, never the engine state, and are elided; the `folder`
field rewrite they accompany is kept. -/

inductive PullOutcome where
  | pulled
  | skipped
deriving DecidableEq, Repr

/-- Conflict test of `pullJobs`: stored hash truthy, job found in the tracker,
and its fresh hash differs from the stored one. -/
def jobConflict (digest : String → String) (t : Tracker) (k : String)
    (e : SyncEntry) : Bool :=
  jsTruthyOpt e.localHash &&
    (match findJobInTracker t k with
     | some f => decide (hashItem digest (jobToJs f.2.2) ≠ e.localHash.getD "")
     | none => false)

/-- The folder-field rewrite performed during a reclassification. -/
def relocatedJob (notionJob : Job) (oldDir : Option String) (notionStatus : String) :
    Job :=
  if jsTruthyOpt notionJob.folder || jsTruthyOpt oldDir then
    let baseName := basenameJs (jsOrD (jsOrOpt oldDir notionJob.folder)
      (notionJob.company ++ " - " ++ notionJob.role))
    let newFolder := "data/" ++ stageToDirectory notionJob.stage notionStatus ++ "/" ++ baseName
    { notionJob with folder := some newFolder }
  else notionJob

/-- Status changed in Notion: move the job between buckets, rewrite the folder
field, and rewrite both sync-map keys and the reverse-index entry. -/
def reclassifyJob (digest : String → String) (pageId pageEdited : String)
    (notionJob : Job) (notionStatus notionLocalKey existingKey : String)
    (m : SyncMap) (t : Tracker) : SyncMap × Tracker × PullOutcome :=
  let found := findJobInTracker t existingKey
  let t1 := match found with
    | some f => removeFromBucket t f.1 f.2.1
    | none => t
  let oldDir := match found with
    | some f => f.2.2.folder
    | none => none
  let job1 := relocatedJob notionJob oldDir notionStatus
  let t2 := bucketPush t1 (arrayMapD notionStatus) job1
  let entry : SyncEntry :=
    { notionId := some pageId, localHash := some (hashItem digest (jobToJs job1)),
      notionLastEdited := some pageEdited, company := some notionJob.company,
      role := some notionJob.role }
  let m1 := { m with
    jobs := alSet (alErase m.jobs existingKey) notionLocalKey entry,
    notionToLocal := alSet m.notionToLocal pageId ⟨"jobs", notionLocalKey⟩ }
  (m1, t2, .pulled)

/-- Same key: update the tracker entry in place and refresh hash/timestamp. -/
def updateJobInPlace (digest : String → String) (pageEdited : String)
    (notionJob : Job) (k : String) (m : SyncMap) (t : Tracker) :
    SyncMap × Tracker × PullOutcome :=
  let t1 := match findJobInTracker t k with
    | some f => setInBucket t f.1 f.2.1 notionJob
    | none => t
  let m1 := { m with jobs := alUpdate m.jobs k (fun e =>
    { e with localHash := some (hashItem digest (jobToJs notionJob)),
             notionLastEdited := some pageEdited }) }
  (m1, t1, .pulled)

/-- Unknown page: materialize a new local job, defaulting the added/updated
dates, and create sync-map and reverse-index entries. -/
def materializeJob (digest : String → String) (today pageId pageEdited : String)
    (notionJob : Job) (notionStatus notionLocalKey : String)
    (m : SyncMap) (t : Tracker) : SyncMap × Tracker × PullOutcome :=
  let j1 := if ¬ jsTruthyOpt notionJob.added then { notionJob with added := some today }
    else notionJob
  let j2 := if notionStatus = "Active" ∧ ¬ jsTruthyOpt j1.updated then
      { j1 with updated := some today }
    else j1
  let t1 := bucketPush t (arrayMapD notionStatus) j2
  let entry : SyncEntry :=
    { notionId := some pageId, localHash := some (hashItem digest (jobToJs j2)),
      notionLastEdited := some pageEdited, company := some j2.company,
      role := some j2.role }
  let m1 := { m with
    jobs := alSet m.jobs notionLocalKey entry,
    notionToLocal := alSet m.notionToLocal pageId ⟨"jobs", notionLocalKey⟩ }
  (m1, t1, .pulled)

/-- One iteration of the `pullJobs` page loop. -/
def pullJobStep (digest : String → String) (full dryRun : Bool) (today : String)
    (page : NotionPage) (m : SyncMap) (t : Tracker) :
    SyncMap × Tracker × PullOutcome :=
  let pr := notionPropertiesToJob page.properties
  let notionLocalKey := getJobLocalId pr.1 pr.2
  match entryLookup m.notionToLocal "jobs" m.jobs page.id with
  | some (k, e) =>
      if ¬ jsTruthyOpt m.lastSyncTime then
        ({ m with jobs := touchEdited m.jobs k page.lastEditedTime }, t, .skipped)
      else if ¬ notionChangedB e.notionLastEdited page.lastEditedTime ∧ ¬ full then
        (m, t, .skipped)
      else if jobConflict digest t k e then
        ({ m with jobs := touchEdited m.jobs k page.lastEditedTime }, t, .skipped)
      else if dryRun then (m, t, .skipped)
      else if k ≠ notionLocalKey then
        reclassifyJob digest page.id page.lastEditedTime pr.1 pr.2 notionLocalKey k m t
      else
        updateJobInPlace digest page.lastEditedTime pr.1 k m t
  | none =>
      if ¬ jsTruthyOpt m.lastSyncTime then (m, t, .skipped)
      else if dryRun then (m, t, .skipped)
      else materializeJob digest today page.id page.lastEditedTime pr.1 pr.2 notionLocalKey m t

/-- `c.id || c.name`, the contact's local key. -/
def contactKey (c : Contact) : String := jsOrD c.id c.name

/-- Conflict test of `pullContacts`. -/
def contactConflict (digest : String → String) (existingContact : Option Contact)
    (e : SyncEntry) : Bool :=
  jsTruthyOpt e.localHash &&
    (match existingContact with
     | some c => decide (hashItem digest (contactToJs c) ≠ e.localHash.getD "")
     | none => false)

def setContactAt (l : List Contact) (k : String) (v : Contact) : List Contact :=
  match l.findIdx? (fun c => contactKey c == k) with
  | some i => l.set i v
  | none => l

/-- One iteration of the `pullContacts` page loop. -/
def pullContactStep (digest : String → String) (full dryRun : Bool) (today : String)
    (page : NotionPage) (m : SyncMap) (contacts : List Contact) :
    SyncMap × List Contact × PullOutcome :=
  match entryLookup m.notionToLocal "contacts" m.contacts page.id with
  | some (k, e) =>
      let existingContact := contacts.find? (fun c => contactKey c == k)
      if ¬ jsTruthyOpt m.lastSyncTime then
        ({ m with contacts := touchEdited m.contacts k page.lastEditedTime }, contacts, .skipped)
      else if ¬ notionChangedB e.notionLastEdited page.lastEditedTime ∧ ¬ full then
        (m, contacts, .skipped)
      else if contactConflict digest existingContact e then
        ({ m with contacts := touchEdited m.contacts k page.lastEditedTime }, contacts, .skipped)
      else if dryRun then (m, contacts, .skipped)
      else
        let updated := notionPropertiesToContact today page.properties existingContact
        let contacts1 := setContactAt contacts k updated
        let m1 := { m with contacts := alUpdate m.contacts k (fun e0 =>
          { e0 with localHash := some (hashItem digest (contactToJs updated)),
                    notionLastEdited := some page.lastEditedTime }) }
        (m1, contacts1, .pulled)
  | none =>
      if ¬ jsTruthyOpt m.lastSyncTime then (m, contacts, .skipped)
      else if dryRun then (m, contacts, .skipped)
      else
        let newContact := notionPropertiesToContact today page.properties none
        let localId := jsOrD newContact.id newContact.name
        let entry : SyncEntry :=
          { notionId := some page.id,
            localHash := some (hashItem digest (contactToJs newContact)),
            notionLastEdited := some page.lastEditedTime }
        let m1 := { m with
          contacts := alSet m.contacts localId entry,
          notionToLocal := alSet m.notionToLocal page.id ⟨"contacts", localId⟩ }
        (m1, contacts ++ [newContact], .pulled)

/-- Conflict test of `pullTasks`. -/
def taskConflict (digest : String → String) (existingTask : Option Task)
    (e : SyncEntry) : Bool :=
  jsTruthyOpt e.localHash &&
    (match existingTask with
     | some tk => decide (hashItem digest (taskToJs tk) ≠ e.localHash.getD "")
     | none => false)

def setTaskAt (l : List Task) (k : String) (v : Task) : List Task :=
  match l.findIdx? (fun tk => tk.id == some k) with
  | some i => l.set i v
  | none => l

/-- One iteration of the `pullTasks` page loop. -/
def pullTaskStep (digest : String → String) (full dryRun : Bool) (today genId : String)
    (page : NotionPage) (m : SyncMap) (tasks : List Task) :
    SyncMap × List Task × PullOutcome :=
  match entryLookup m.notionToLocal "tasks" m.tasks page.id with
  | some (k, e) =>
      let existingTask := tasks.find? (fun tk => tk.id == some k)
      if ¬ jsTruthyOpt m.lastSyncTime then
        ({ m with tasks := touchEdited m.tasks k page.lastEditedTime }, tasks, .skipped)
      else if ¬ notionChangedB e.notionLastEdited page.lastEditedTime ∧ ¬ full then
        (m, tasks, .skipped)
      else if taskConflict digest existingTask e then
        ({ m with tasks := touchEdited m.tasks k page.lastEditedTime }, tasks, .skipped)
      else if dryRun then (m, tasks, .skipped)
      else
        let updated := notionPropertiesToTask today genId page.properties existingTask
        let tasks1 := setTaskAt tasks k updated
        let m1 := { m with tasks := alUpdate m.tasks k (fun e0 =>
          { e0 with localHash := some (hashItem digest (taskToJs updated)),
                    notionLastEdited := some page.lastEditedTime }) }
        (m1, tasks1, .pulled)
  | none =>
      if ¬ jsTruthyOpt m.lastSyncTime then (m, tasks, .skipped)
      else if dryRun then (m, tasks, .skipped)
      else
        let newTask := notionPropertiesToTask today genId page.properties none
        let localId := newTask.id.getD ""
        let entry : SyncEntry :=
          { notionId := some page.id,
            localHash := some (hashItem digest (taskToJs newTask)),
            notionLastEdited := some page.lastEditedTime }
        let m1 := { m with
          tasks := alSet m.tasks localId entry,
          notionToLocal := alSet m.notionToLocal page.id ⟨"tasks", localId⟩ }
        (m1, tasks ++ [newTask], .pulled)

/-! ## Push phase, per local record (the loop bodies of `pushJobs` /
`pushTasks`).  The outcome of the one remote call a record may trigger is
passed in as `res`; `.error` covers any exception the `try` block catches. -/

structure PageResult where
  id : String
  lastEditedTime : String
deriving DecidableEq, Repr

inductive PushAction where
  | unchanged
  | dryRunSkip
  | updatedRemote
  | createdRemote
  | errorCaught
deriving DecidableEq, Repr

/-- `!FULL_SYNC && syncEntry?.localHash === currentHash && syncEntry.notionId`. -/
def pushSkip (full : Bool) (syncEntry : Option SyncEntry) (currentHash : String) :
    Bool :=
  !full &&
    (match syncEntry with
     | some e => decide (e.localHash = some currentHash) && jsTruthyOpt e.notionId
     | none => false)

/-- One iteration of the `pushJobs` record loop. -/
def pushJobStep (digest : String → String) (full dryRun : Bool)
    (res : Except String PageResult) (m : SyncMap) (job : Job) (status : String) :
    SyncMap × PushAction :=
  let localId := getJobLocalId job status
  let syncEntry := alGet m.jobs localId
  let currentHash := hashItem digest (jobToJs job)
  if pushSkip full syncEntry currentHash then (m, .unchanged)
  else
    let notionId := syncEntry.bind (·.notionId)
    if dryRun then (m, .dryRunSkip)
    else if jsTruthyOpt notionId then
      match res with
      | .ok r =>
          let base := match alGet m.jobs localId with
            | some e => e
            | none => {}
          let entry := { base with
            notionId := notionId,
            localHash := some currentHash,
            notionLastEdited := some r.lastEditedTime,
            company := some job.company,
            role := some job.role }
          ({ m with jobs := alSet m.jobs localId entry }, .updatedRemote)
      | .error _ => (m, .errorCaught)
    else
      match res with
      | .ok r =>
          let entry : SyncEntry := {
            notionId := some r.id,
            localHash := some currentHash,
            notionLastEdited := some r.lastEditedTime,
            company := some job.company,
            role := some job.role }
          let m1 := { m with
            jobs := alSet m.jobs localId entry,
            notionToLocal := alSet m.notionToLocal r.id ⟨"jobs", localId⟩ }
          (m1, .createdRemote)
      | .error _ => (m, .errorCaught)

/-- One iteration of the `pushTasks` record loop (`localId = task.id || task.task`). -/
def pushTaskStep (digest : String → String) (full dryRun : Bool)
    (res : Except String PageResult) (m : SyncMap) (task : Task) :
    SyncMap × PushAction :=
  let localId := jsOrD task.id task.task
  let syncEntry := alGet m.tasks localId
  let currentHash := hashItem digest (taskToJs task)
  if pushSkip full syncEntry currentHash then (m, .unchanged)
  else
    let notionId := syncEntry.bind (·.notionId)
    if dryRun then (m, .dryRunSkip)
    else if jsTruthyOpt notionId then
      match res with
      | .ok r =>
          let base := match alGet m.tasks localId with
            | some e => e
            | none => {}
          let entry := { base with
            notionId := notionId,
            localHash := some currentHash,
            notionLastEdited := some r.lastEditedTime }
          ({ m with tasks := alSet m.tasks localId entry }, .updatedRemote)
      | .error _ => (m, .errorCaught)
    else
      match res with
      | .ok r =>
          let entry : SyncEntry := {
            notionId := some r.id,
            localHash := some currentHash,
            notionLastEdited := some r.lastEditedTime }
          let m1 := { m with
            tasks := alSet m.tasks localId entry,
            notionToLocal := alSet m.notionToLocal r.id ⟨"tasks", localId⟩ }
          (m1, .createdRemote)
      | .error _ => (m, .errorCaught)

/-- The flattened `pushJobs` iteration over (job, status, remote-call result)
triples: per-record failures are caught and the loop continues. -/
def pushJobsRun (digest : String → String) (full dryRun : Bool) (m : SyncMap) :
    List (Job × String × Except String PageResult) → SyncMap × List PushAction
  | [] => (m, [])
  | (job, status, res) :: rest =>
      let step := pushJobStep digest full dryRun res m job status
      let next := pushJobsRun digest full dryRun step.1 rest
      (next.1, step.2 :: next.2)

/-! ## Deletion detection and handling -/

inductive EType where
  | jobs
  | contacts
  | tasks
deriving DecidableEq, Repr

def SyncMap.typeMap (m : SyncMap) : EType → List (String × SyncEntry)
  | .jobs => m.jobs
  | .contacts => m.contacts
  | .tasks => m.tasks

def SyncMap.withTypeMap (m : SyncMap) : EType → List (String × SyncEntry) → SyncMap
  | .jobs, l => { m with jobs := l }
  | .contacts, l => { m with contacts := l }
  | .tasks, l => { m with tasks := l }

/-- `detectLocalDeletions`: mapped keys absent from the pushed local key set
(with a truthy notionId) are deletion candidates. -/
def detectLocalDeletions (m : SyncMap) (ty : EType) (currentLocalKeys : List String) :
    List (String × String) :=
  (m.typeMap ty).filterMap (fun kv =>
    if ¬ currentLocalKeys.contains kv.1 ∧ jsTruthyOpt kv.2.notionId then
      some (kv.1, kv.2.notionId.getD "")
    else none)

/-- Removal of both the Sync State Entry and the reverse-index entry after a
successful archive. -/
def eraseDeletion (m : SyncMap) (ty : EType) (k nid : String) : SyncMap :=
  let m1 := m.withTypeMap ty (alErase (m.typeMap ty) k)
  { m1 with notionToLocal := alErase m1.notionToLocal nid }

/-- The `APPLY_DELETES` loop: `archiveOk nid` is whether the archive `PATCH`
for that page succeeds; a failure is caught and the loop continues.  The
returned list records the archive calls issued (in order). -/
def handleDeletionsGo (dryRun : Bool) (archiveOk : String → Bool) (ty : EType) :
    List (String × String) → SyncMap → SyncMap × List String
  | [], m => (m, [])
  | (k, nid) :: rest, m =>
      if dryRun then handleDeletionsGo dryRun archiveOk ty rest m
      else if archiveOk nid then
        let next := handleDeletionsGo dryRun archiveOk ty rest (eraseDeletion m ty k nid)
        (next.1, nid :: next.2)
      else
        let next := handleDeletionsGo dryRun archiveOk ty rest m
        (next.1, nid :: next.2)

/-- `handleDeletions`: without `--apply-deletes` the candidates are only
reported (no state change, no remote calls). -/
def handleDeletions (applyDeletes dryRun : Bool) (archiveOk : String → Bool)
    (ds : List (String × String)) (ty : EType) (m : SyncMap) :
    SyncMap × List String :=
  if applyDeletes then handleDeletionsGo dryRun archiveOk ty ds m
  else (m, [])

/-! ## Orchestrator tail -/

/-- End of `main`: on a non-dry run set the watermark to "now" and save the
sync map (`true` = `saveSyncMap` called). -/
def finalizeSync (dryRun : Bool) (now : String) (m : SyncMap) : SyncMap × Bool :=
  if dryRun then (m, false) else ({ m with lastSyncTime := some now }, true)

/-- `totalPulled > 0 && !DRY_RUN`: whether the local documents are rewritten
between pull and push. -/
def persistLocalGate (dryRun : Bool) (totalPulled : Nat) : Bool :=
  decide (0 < totalPulled) && !dryRun

/-! ## Rate-limited transport with retry -/

def MAX_RETRIES : Nat := 3

/-- An HTTP response: status code and the parsed `retry-after` header
(`parseInt(res.headers['retry-after'] || '1', 10)`, so `none` means the
default hint `1`). -/
structure Resp where
  status : Nat
  retryAfter : Option Nat := none
deriving DecidableEq, Repr

/-- `retryAfter * 1000 + (attempt + 1) * 500` milliseconds. -/
def retryWait (r : Resp) (attempt : Nat) : Nat :=
  r.retryAfter.getD 1 * 1000 + (attempt + 1) * 500

/-- `notionRequestWithRetry`, with `rs a` the response the server returns to
attempt `a`.  Returns the waits slept before each retry, and the final
outcome: a 429 still seen once the retry budget is exhausted — like any other
status `>= 400` — rejects with an error. -/
def notionRequestWithRetry (rs : Nat → Resp) (attempt : Nat) :
    List Nat × Except String Resp :=
  let r := rs attempt
  if h : r.status = 429 ∧ attempt < MAX_RETRIES then
    let rest := notionRequestWithRetry rs (attempt + 1)
    (retryWait r attempt :: rest.1, rest.2)
  else if 400 ≤ r.status then ([], .error "Notion API error")
  else ([], .ok r)
termination_by MAX_RETRIES - attempt
decreasing_by omega

/-- One page of a database query: `result.results`, `result.has_more`,
`result.next_cursor`. -/
structure QueryResult where
  results : List NotionPage
  hasMore : Bool
  nextCursor : Option String
deriving Repr

/-- The `fetchChangedPages` pagination loop: `query cursor` is the outcome of
the `POST /databases/{dbId}/query` issued with that `start_cursor` (`none` for
the first page; the 350 ms inter-page sleep touches no state and is elided).
The loop sets `startCursor = result.has_more ? result.next_cursor : undefined`
and repeats while that cursor is truthy; a rejected request propagates out of
the `await` immediately, so the failing query is the last one issued and no
partial page list escapes.  The first component records the cursors queried,
in order.  `fuel` bounds the pagination depth: the JS do/while runs until the
remote stops returning `has_more`, so any fuel exceeding the page count
reproduces the loop's behavior. -/
def fetchPagesGo (query : Option String → Except String QueryResult) :
    Nat → Option String → List NotionPage →
    List (Option String) × Except String (List NotionPage)
  | 0, _, acc => ([], .ok acc)
  | fuel + 1, cursor, acc =>
      match query cursor with
      | .error e => ([cursor], .error e)
      | .ok result =>
          let acc1 := acc ++ result.results
          let next := if result.hasMore then result.nextCursor else none
          if jsTruthyOpt next then
            let rest := fetchPagesGo query fuel next acc1
            (cursor :: rest.1, rest.2)
          else ([cursor], .ok acc1)

/-- `fetchChangedPages` (and `fetchAllPages`, which is the `since = null`
case): the pagination loop started from the initial undefined cursor. -/
def fetchChangedPages (query : Option String → Except String QueryResult)
    (fuel : Nat) : List (Option String) × Except String (List NotionPage) :=
  fetchPagesGo query fuel none []

/-! ## Spec-side predicate (for the backoff claim)

Modelled from the spec's words "bounded exponential backoff": the successive
waits grow by a constant multiplicative factor, i.e. strictly increase and
form a geometric progression. -/

def geomStepsB : List Nat → Bool
  | a :: b :: c :: rest => decide (b * b = a * c) && geomStepsB (b :: c :: rest)
  | _ => true

def strictIncrB : List Nat → Bool
  | a :: b :: rest => decide (a < b) && strictIncrB (b :: rest)
  | _ => true

def IsExponentialBackoff (ws : List Nat) : Prop :=
  strictIncrB ws = true ∧ geomStepsB ws = true

/-! ## Association-map lemmas -/

theorem alGet_alUpdate_self {β : Type} (m : List (String × β)) (k : String)
    (f : β → β) : alGet (alUpdate m k f) k = (alGet m k).map f := by
  induction m with
  | nil => rfl
  | cons kv rest ih =>
      by_cases h : kv.1 = k
      · simp [alUpdate, alGet, h]
      · simp only [alUpdate, List.map_cons] at ih ⊢
        simp [alGet, h, ih]

theorem alGet_alUpdate_ne {β : Type} (m : List (String × β)) (k k2 : String)
    (f : β → β) (h : k2 ≠ k) : alGet (alUpdate m k f) k2 = alGet m k2 := by
  induction m with
  | nil => rfl
  | cons kv rest ih =>
      simp only [alUpdate, List.map_cons] at ih ⊢
      by_cases hk : kv.1 = k
      · have hne : kv.1 ≠ k2 := by rw [hk]; exact Ne.symm h
        simp [alGet, hk, hne, h, Ne.symm h, ih]
      · by_cases hk2 : kv.1 = k2 <;> simp [alGet, hk, hk2, h, Ne.symm h, ih]

theorem alGet_append_of_none {β : Type} (m l : List (String × β)) (k : String)
    (h : alGet m k = none) : alGet (m ++ l) k = alGet l k := by
  induction m with
  | nil => rfl
  | cons kv rest ih =>
      by_cases hk : kv.1 = k
      · simp [alGet, hk] at h
      · simp [alGet, hk] at h ⊢
        exact ih h

theorem alGet_alReplace_self {β : Type} (m : List (String × β)) (k : String)
    (v : β) (h : (alGet m k).isSome) : alGet (alReplace m k v) k = some v := by
  induction m with
  | nil => simp [alGet] at h
  | cons kv rest ih =>
      by_cases hk : kv.1 = k
      · simp [alReplace, alGet, hk]
      · simp [alGet, hk] at h
        simp [alReplace, alGet, hk]
        exact ih h

theorem alGet_alSet_self {β : Type} (m : List (String × β)) (k : String)
    (v : β) : alGet (alSet m k v) k = some v := by
  unfold alSet
  by_cases h : (alGet m k).isSome
  · simp [h, alGet_alReplace_self m k v h]
  · simp only [h, if_false, Bool.false_eq_true]
    have hn : alGet m k = none := by
      cases hv : alGet m k
      · rfl
      · simp [hv] at h
    rw [alGet_append_of_none m _ k hn]
    simp [alGet]

theorem alGet_alReplace_ne {β : Type} (m : List (String × β)) (k k2 : String)
    (v : β) (h : k2 ≠ k) : alGet (alReplace m k v) k2 = alGet m k2 := by
  induction m with
  | nil => rfl
  | cons kv rest ih =>
      by_cases hk : kv.1 = k
      · have hne : kv.1 ≠ k2 := by rw [hk]; exact Ne.symm h
        simp [alReplace, alGet, hk, hne, h, Ne.symm h, ih]
      · by_cases hk2 : kv.1 = k2 <;> simp [alReplace, alGet, hk, hk2, h, Ne.symm h, ih]

theorem alGet_append_single_ne {β : Type} (m : List (String × β)) (k k2 : String)
    (v : β) (h : k2 ≠ k) : alGet (m ++ [(k, v)]) k2 = alGet m k2 := by
  induction m with
  | nil => simp [alGet, Ne.symm h]
  | cons kv rest ih =>
      by_cases hk2 : kv.1 = k2 <;> simp [alGet, hk2, ih]

theorem alGet_alSet_ne {β : Type} (m : List (String × β)) (k k2 : String)
    (v : β) (h : k2 ≠ k) : alGet (alSet m k v) k2 = alGet m k2 := by
  unfold alSet
  by_cases hs : (alGet m k).isSome
  · simp [hs, alGet_alReplace_ne m k k2 v h]
  · simp [hs, alGet_append_single_ne m k k2 v h]

theorem alGet_alErase_self {β : Type} (m : List (String × β)) (k : String) :
    alGet (alErase m k) k = none := by
  induction m with
  | nil => rfl
  | cons kv rest ih =>
      by_cases hk : kv.1 = k <;> simp [alErase, alGet, hk, ih]

theorem alGet_alErase_ne {β : Type} (m : List (String × β)) (k k2 : String)
    (h : k2 ≠ k) : alGet (alErase m k) k2 = alGet m k2 := by
  induction m with
  | nil => rfl
  | cons kv rest ih =>
      by_cases hk : kv.1 = k
      · have hne : kv.1 ≠ k2 := by rw [hk]; exact Ne.symm h
        simp [alErase, alGet, hk, hne, h, Ne.symm h, ih]
      · by_cases hk2 : kv.1 = k2 <;> simp [alErase, alGet, hk, hk2, h, Ne.symm h, ih]

/-- Entries with the remote timestamp field blanked: equality under
`clearTimes` says two sync maps differ at most in `notionLastEdited` values. -/
def clearTimes (l : List (String × SyncEntry)) : List (String × SyncEntry) :=
  l.map (fun kv => (kv.1, { kv.2 with notionLastEdited := none }))

theorem clearTimes_touchEdited (l : List (String × SyncEntry)) (k time : String) :
    clearTimes (touchEdited l k time) = clearTimes l := by
  unfold clearTimes touchEdited alUpdate
  rw [List.map_map]
  apply List.map_congr_left
  intro kv _
  by_cases h : kv.1 = k <;> simp [h]

/-! ## Order lemmas for the date comparator -/

theorem charsLe_total (a b : List Char) : charsLe a b = true ∨ charsLe b a = true := by
  induction a generalizing b with
  | nil => left; rfl
  | cons c cs ih =>
      cases b with
      | nil => right; rfl
      | cons d ds =>
          by_cases h1 : c < d
          · left; simp [charsLe, h1]
          · by_cases h2 : d < c
            · right; simp [charsLe, h2]
            · have := ih ds
              rcases this with h | h
              · left; simp [charsLe, h1, h2, h]
              · right; simp [charsLe, h1, h2, h]

theorem charsLe_trans (a b c : List Char) (hab : charsLe a b = true)
    (hbc : charsLe b c = true) : charsLe a c = true := by
  induction a generalizing b c with
  | nil => rfl
  | cons x xs ih =>
      cases b with
      | nil => simp [charsLe] at hab
      | cons y ys =>
          cases c with
          | nil => simp [charsLe] at hbc
          | cons z zs =>
              by_cases hxy : x < y
              · by_cases hyz : y < z
                · simp [charsLe, lt_trans hxy hyz]
                · by_cases hzy : z < y
                  · simp [charsLe, hyz, hzy] at hbc
                  · have hyz2 : y = z := le_antisymm (not_lt.mp hzy) (not_lt.mp hyz)
                    subst hyz2
                    simp [charsLe, hxy]
              · by_cases hyx : y < x
                · simp [charsLe, hxy, hyx] at hab
                · have hxy2 : x = y := le_antisymm (not_lt.mp hyx) (not_lt.mp hxy)
                  subst hxy2
                  simp only [charsLe, hxy, if_false] at hab
                  by_cases hyz : x < z
                  · simp [charsLe, hyz]
                  · by_cases hzy : z < x
                    · simp [charsLe, hyz, hzy] at hbc
                    · simp only [charsLe, hyz, hzy, if_false] at hbc ⊢
                      exact ih ys zs hab hbc

theorem strLeB_total (a b : String) : strLeB a b = true ∨ strLeB b a = true :=
  charsLe_total a.toList b.toList

theorem strLeB_trans (a b c : String) (hab : strLeB a b = true)
    (hbc : strLeB b c = true) : strLeB a c = true :=
  charsLe_trans a.toList b.toList c.toList hab hbc

/-- The order the merged interaction list is kept in. -/
def dateLe (a b : Interaction) : Prop := strLeB a.date b.date = true

instance : DecidableRel dateLe := fun a b => by
  unfold dateLe; infer_instance

/-! ## Merge lemmas -/

theorem mem_insertByDate (x i : Interaction) (l : List Interaction) :
    x ∈ insertByDate i l ↔ x = i ∨ x ∈ l := by
  induction l with
  | nil => simp [insertByDate]
  | cons j rest ih =>
      by_cases h : strLeB i.date j.date
      · simp [insertByDate, h, ih]
      · simp only [insertByDate, h, if_false, Bool.false_eq_true, List.mem_cons, ih]
        constructor
        · rintro (h1 | h2 | h3)
          · exact Or.inr (Or.inl h1)
          · exact Or.inl h2
          · exact Or.inr (Or.inr h3)
        · rintro (h1 | h2 | h3)
          · exact Or.inr (Or.inl h1)
          · exact Or.inl h2
          · exact Or.inr (Or.inr h3)

theorem insertByDate_perm (i : Interaction) (l : List Interaction) :
    (insertByDate i l).Perm (i :: l) := by
  induction l with
  | nil => simp [insertByDate]
  | cons j rest ih =>
      by_cases h : strLeB i.date j.date
      · simp [insertByDate, h]
      · simp only [insertByDate, h, if_false, Bool.false_eq_true]
        exact (List.Perm.cons j ih).trans (List.Perm.swap i j rest)

theorem sortByDate_perm (l : List Interaction) : (sortByDate l).Perm l := by
  induction l with
  | nil => simp [sortByDate]
  | cons i rest ih =>
      simp only [sortByDate]
      exact (insertByDate_perm i (sortByDate rest)).trans (List.Perm.cons i ih)

theorem sorted_insertByDate (i : Interaction) (l : List Interaction)
    (h : l.Sorted dateLe) : (insertByDate i l).Sorted dateLe := by
  induction l with
  | nil => simp [insertByDate]
  | cons j rest ih =>
      rw [List.sorted_cons] at h
      by_cases hc : strLeB i.date j.date
      · simp only [insertByDate, hc, if_true]
        rw [List.sorted_cons]
        constructor
        · intro b hb
          rcases List.mem_cons.mp hb with hb | hb
          · subst hb; exact hc
          · exact strLeB_trans _ _ _ hc (h.1 b hb)
        · rw [List.sorted_cons]; exact h
      · simp only [insertByDate, hc, if_false, Bool.false_eq_true]
        rw [List.sorted_cons]
        constructor
        · intro b hb
          rcases (mem_insertByDate b i rest).mp hb with hb | hb
          · subst hb
            rcases strLeB_total b.date j.date with ht | ht
            · exact absurd ht hc
            · exact ht
          · exact h.1 b hb
        · exact ih h.2

theorem sorted_sortByDate (l : List Interaction) : (sortByDate l).Sorted dateLe := by
  induction l with
  | nil => simp [sortByDate]
  | cons i rest ih => exact sorted_insertByDate i (sortByDate rest) ih

theorem addNew_sound (parsed : List Interaction) :
    ∀ seen : List String, ∀ a ∈ addNew seen parsed, a ∈ parsed ∧ ikey a ∉ seen := by
  induction parsed with
  | nil => intro seen a ha; simp [addNew] at ha
  | cons i rest ih =>
      intro seen a ha
      by_cases h : ikey i ∈ seen
      · simp only [addNew, if_pos h] at ha
        have := ih seen a ha
        exact ⟨List.mem_cons_of_mem i this.1, this.2⟩
      · simp only [addNew, if_neg h] at ha
        rcases List.mem_cons.mp ha with ha | ha
        · subst ha; exact ⟨List.mem_cons_self a rest, h⟩
        · have := ih (ikey i :: seen) a ha
          refine ⟨List.mem_cons_of_mem i this.1, fun hmem => this.2 ?_⟩
          exact List.mem_cons_of_mem _ hmem

theorem addNew_keys_nodup (parsed : List Interaction) :
    ∀ seen : List String, ((addNew seen parsed).map ikey).Nodup := by
  induction parsed with
  | nil => intro seen; simp [addNew]
  | cons i rest ih =>
      intro seen
      by_cases h : ikey i ∈ seen
      · simp only [addNew, if_pos h]; exact ih seen
      · simp only [addNew, if_neg h, List.map_cons, List.nodup_cons]
        constructor
        · intro hmem
          rcases List.mem_map.mp hmem with ⟨a, ha, hk⟩
          have := addNew_sound rest (ikey i :: seen) a ha
          exact this.2 (by rw [hk]; exact List.mem_cons_self _ _)
        · exact ih (ikey i :: seen)

/-! ## Claim C2 -/

def interColA : Interaction := ⟨"2024-01-01", "call", "intro"⟩

def interColB : Interaction := ⟨"2024-01-01", "call", "followup"⟩

def contactColA : Contact :=
  { id := some "ann", name := "Ann", added := some "2024-01-01",
    interactions := [interColA] }

def contactColB : Contact := { contactColA with interactions := [interColB] }

/-- C2: the claim says any field-value change — including fields of nested
sub-records such as an interaction's summary — changes the canonical hash.
The code violates this: `JSON.stringify(item, Object.keys(item).sort())` uses
the sorted top-level key list as an array replacer, which filters keys at
every nesting depth, so interaction sub-records serialize as empty objects and
two contacts that differ only in an interaction's summary produce the same
serialization — hence the same digest for every digest function. -/
theorem hash_ignores_nested_interaction_fields :
    contactColA ≠ contactColB ∧
    canonicalSerialize (contactToJs contactColA) =
      canonicalSerialize (contactToJs contactColB) ∧
    hashItem (fun s => s) (contactToJs contactColA) =
      hashItem (fun s => s) (contactToJs contactColB) := by
  refine ⟨by decide, by rfl, by rfl⟩

/-! ## Claim C5 -/

def interUnsortedA : Interaction := ⟨"2024-02-01", "call", "b"⟩

def interUnsortedB : Interaction := ⟨"2024-01-01", "email", "a"⟩

/-- C5 (counterexample): the claim says the merge result is always ordered by
date ascending; but when nothing parses from the notes text the existing
sequence is returned unchanged, so an unsorted existing sequence stays
unsorted. -/
theorem merge_unsorted_when_nothing_parsed :
    mergeInteractions [interUnsortedA, interUnsortedB] "" =
      [interUnsortedA, interUnsortedB] ∧
    ¬ (mergeInteractions [interUnsortedA, interUnsortedB] "").Sorted dateLe := by
  refine ⟨by rfl, by decide⟩

/-- C5 (amended): the merge never drops existing entries, adds only parsed
entries whose (date, type, summary) key is not already present (and no two
added entries share a key), and the result is ordered by date ascending
whenever at least one entry parses from the notes (when nothing parses the
existing sequence is returned unchanged, so order is preserved but not
created; in particular a sorted input always yields a sorted output). -/
theorem merge_append_only_superset_amended (existing : List Interaction)
    (notesText : String) :
    (parseInteractionsFromNotes notesText = [] →
      mergeInteractions existing notesText = existing) ∧
    (mergeInteractions existing notesText).Perm
      (existing ++ addNew (existing.map ikey) (parseInteractionsFromNotes notesText)) ∧
    (∀ a ∈ addNew (existing.map ikey) (parseInteractionsFromNotes notesText),
      a ∈ parseInteractionsFromNotes notesText ∧ ikey a ∉ existing.map ikey) ∧
    ((addNew (existing.map ikey) (parseInteractionsFromNotes notesText)).map ikey).Nodup ∧
    (parseInteractionsFromNotes notesText ≠ [] →
      (mergeInteractions existing notesText).Sorted dateLe) ∧
    (existing.Sorted dateLe → (mergeInteractions existing notesText).Sorted dateLe) := by
  by_cases hp : (parseInteractionsFromNotes notesText).isEmpty
  · have hpe : parseInteractionsFromNotes notesText = [] := by
      cases h : parseInteractionsFromNotes notesText
      · rfl
      · rw [h] at hp; simp at hp
    have hm : mergeInteractions existing notesText = existing := by
      unfold mergeInteractions
      simp [hp]
    refine ⟨fun _ => hm, ?_, ?_, ?_, ?_, ?_⟩
    · rw [hm, hpe]
      simp [addNew]
    · rw [hpe]
      intro a ha
      simp [addNew] at ha
    · rw [hpe]
      simp [addNew]
    · intro hne; exact absurd hpe hne
    · intro hs; rwa [hm]
  · have hm : mergeInteractions existing notesText =
        sortByDate (existing ++ addNew (existing.map ikey)
          (parseInteractionsFromNotes notesText)) := by
      unfold mergeInteractions
      simp [hp]
    refine ⟨?_, ?_, ?_, ?_, ?_, ?_⟩
    · intro hpe; rw [hpe] at hp; simp at hp
    · rw [hm]; exact sortByDate_perm _
    · intro a ha; exact addNew_sound _ _ a ha
    · exact addNew_keys_nodup _ _
    · intro _; rw [hm]; exact sorted_sortByDate _
    · intro _; rw [hm]; exact sorted_sortByDate _

/-- C5 (witness for the amended theorem). -/
theorem merge_append_only_superset_amended_witness :
    (mergeInteractions [interUnsortedA] "[2024-01-05] email: a").Sorted dateLe :=
  (merge_append_only_superset_amended [interUnsortedA] "[2024-01-05] email: a").2.2.2.2.1
    (by decide)

/-! ## Claim C7 -/

theorem handleDeletionsGo_dry (archiveOk : String → Bool) (ty : EType) :
    ∀ (ds : List (String × String)) (m : SyncMap),
      handleDeletionsGo true archiveOk ty ds m = (m, []) := by
  intro ds
  induction ds with
  | nil => intro m; rfl
  | cons kv rest ih => intro m; cases kv; simp [handleDeletionsGo, ih]

/-- C7: deletion handling is opt-in and atomic per item: without the
apply-deletes flag nothing is mutated and no archive call is made; with the
flag, a candidate's Sync State Entry and reverse-index entry are removed
exactly when the archive call for it succeeds, and retained when it fails
(the call being issued either way). -/
theorem deletion_handling_opt_in_and_atomic :
    (∀ (dry : Bool) (archiveOk : String → Bool) (ds : List (String × String))
        (ty : EType) (m : SyncMap),
      handleDeletions false dry archiveOk ds ty m = (m, [])) ∧
    (∀ (archiveOk : String → Bool) (k nid : String) (ty : EType) (m : SyncMap),
      handleDeletions true false archiveOk [(k, nid)] ty m =
        (if archiveOk nid then eraseDeletion m ty k nid else m, [nid])) := by
  constructor
  · intro dry archiveOk ds ty m
    simp [handleDeletions]
  · intro archiveOk k nid ty m
    by_cases h : archiveOk nid <;>
      simp [handleDeletions, handleDeletionsGo, h]

/-! ## Claim C9 -/

def digestC9 : String → String := fun _ => ""

def jobC9 : Job := { company := "Acme", role := "Eng" }

def entryC9 : SyncEntry :=
  { notionId := some "p1", localHash := some "HY",
    notionLastEdited := some "2024-01-02T00:00:00.000Z" }

def mapC9 : SyncMap :=
  { lastSyncTime := none, jobs := [("Active:Acme:Eng", entryC9)], contacts := [],
    tasks := [], notionToLocal := [("p1", ⟨"jobs", "Active:Acme:Eng"⟩)] }

def trackerC9 : Tracker := { active := [jobC9], skipped := [], closed := [] }

def pageC9 : NotionPage :=
  { id := "p1", lastEditedTime := "2024-01-03T00:00:00.000Z",
    properties := [("Role", .title ["Eng"]), ("Company", .richText ["Acme"]),
                   ("Status", .select (some "Active"))] }

/-- C9 (counterexample): the claim says dry-run leaves the Sync State Entries
exactly as loaded; but the baseline branch of the pull loop (like the conflict
branch) assigns `syncEntry.notionLastEdited` before the dry-run check, so even
with dry-run enabled the in-memory sync map changes. -/
theorem dry_run_mutates_sync_entry_time :
    (pullJobStep digestC9 false true "2024-01-05" pageC9 mapC9 trackerC9).1 ≠ mapC9 := by
  decide

/-- C9 (amended): in dry-run mode the engine mutates no local collection, no
reverse-index entry, no watermark, performs no push create/update, no archive
call and no sync-state/local persistence; the one exception is that the pull
phase may still update the `remoteLastEdited` field of existing Sync State
Entries (baseline and conflict-acknowledgement branches). -/
theorem dry_run_no_mutation_except_edit_times :
    (∀ (digest : String → String) (full : Bool) (today : String)
        (page : NotionPage) (m : SyncMap) (t : Tracker),
      (pullJobStep digest full true today page m t).2.1 = t ∧
      clearTimes (pullJobStep digest full true today page m t).1.jobs =
        clearTimes m.jobs ∧
      (pullJobStep digest full true today page m t).1.contacts = m.contacts ∧
      (pullJobStep digest full true today page m t).1.tasks = m.tasks ∧
      (pullJobStep digest full true today page m t).1.notionToLocal = m.notionToLocal ∧
      (pullJobStep digest full true today page m t).1.lastSyncTime = m.lastSyncTime) ∧
    (∀ (digest : String → String) (full : Bool) (today : String)
        (page : NotionPage) (m : SyncMap) (contacts : List Contact),
      (pullContactStep digest full true today page m contacts).2.1 = contacts ∧
      clearTimes (pullContactStep digest full true today page m contacts).1.contacts =
        clearTimes m.contacts ∧
      (pullContactStep digest full true today page m contacts).1.jobs = m.jobs ∧
      (pullContactStep digest full true today page m contacts).1.tasks = m.tasks ∧
      (pullContactStep digest full true today page m contacts).1.notionToLocal =
        m.notionToLocal ∧
      (pullContactStep digest full true today page m contacts).1.lastSyncTime =
        m.lastSyncTime) ∧
    (∀ (digest : String → String) (full : Bool) (today genId : String)
        (page : NotionPage) (m : SyncMap) (tasks : List Task),
      (pullTaskStep digest full true today genId page m tasks).2.1 = tasks ∧
      clearTimes (pullTaskStep digest full true today genId page m tasks).1.tasks =
        clearTimes m.tasks ∧
      (pullTaskStep digest full true today genId page m tasks).1.jobs = m.jobs ∧
      (pullTaskStep digest full true today genId page m tasks).1.contacts = m.contacts ∧
      (pullTaskStep digest full true today genId page m tasks).1.notionToLocal =
        m.notionToLocal ∧
      (pullTaskStep digest full true today genId page m tasks).1.lastSyncTime =
        m.lastSyncTime) ∧
    (∀ (digest : String → String) (full : Bool) (res : Except String PageResult)
        (m : SyncMap) (job : Job) (status : String),
      (pushJobStep digest full true res m job status).1 = m ∧
      ((pushJobStep digest full true res m job status).2 = PushAction.unchanged ∨
       (pushJobStep digest full true res m job status).2 = PushAction.dryRunSkip)) ∧
    (∀ (digest : String → String) (full : Bool) (res : Except String PageResult)
        (m : SyncMap) (task : Task),
      (pushTaskStep digest full true res m task).1 = m ∧
      ((pushTaskStep digest full true res m task).2 = PushAction.unchanged ∨
       (pushTaskStep digest full true res m task).2 = PushAction.dryRunSkip)) ∧
    (∀ (applyDeletes : Bool) (archiveOk : String → Bool)
        (ds : List (String × String)) (ty : EType) (m : SyncMap),
      handleDeletions applyDeletes true archiveOk ds ty m = (m, [])) ∧
    (∀ (now : String) (m : SyncMap), finalizeSync true now m = (m, false)) ∧
    (∀ n, persistLocalGate true n = false) := by
  refine ⟨?_, ?_, ?_, ?_, ?_, ?_, ?_, ?_⟩
  · intro digest full today page m t
    cases hl : entryLookup m.notionToLocal "jobs" m.jobs page.id with
    | some ke =>
        cases ke with
        | mk k e =>
            simp only [pullJobStep, hl]
            split_ifs <;> simp [clearTimes_touchEdited]
    | none =>
        simp only [pullJobStep, hl]
        split_ifs <;> simp
  · intro digest full today page m contacts
    cases hl : entryLookup m.notionToLocal "contacts" m.contacts page.id with
    | some ke =>
        cases ke with
        | mk k e =>
            simp only [pullContactStep, hl]
            split_ifs <;> simp [clearTimes_touchEdited]
    | none =>
        simp only [pullContactStep, hl]
        split_ifs <;> simp
  · intro digest full today genId page m tasks
    cases hl : entryLookup m.notionToLocal "tasks" m.tasks page.id with
    | some ke =>
        cases ke with
        | mk k e =>
            simp only [pullTaskStep, hl]
            split_ifs <;> simp [clearTimes_touchEdited]
    | none =>
        simp only [pullTaskStep, hl]
        split_ifs <;> simp
  · intro digest full res m job status
    simp only [pushJobStep]
    split_ifs <;> simp
  · intro digest full res m task
    simp only [pushTaskStep]
    split_ifs <;> simp
  · intro applyDeletes archiveOk ds ty m
    by_cases h : applyDeletes <;>
      simp [handleDeletions, h, handleDeletionsGo_dry]
  · intro now m; rfl
  · intro n; simp [persistLocalGate]

/-! ## Claim C10 -/

def propsC10 : List (String × NProp) :=
  [("Status", .select (some "OnHold")), ("Role", .title ["Eng"]),
   ("Company", .richText ["Acme"])]

/-- C10 (counterexample): the claim says a Status value that is not one of
Active/Skipped/Closed is defaulted to 'Active'; but a non-empty unrecognized
select value is truthy, so `getNotionSelect(...) || 'Active'` keeps it
verbatim — only the bucket lookup falls back to the active bucket. -/
theorem unrecognized_status_not_defaulted :
    (notionPropertiesToJob propsC10).2 = "OnHold" ∧
    (notionPropertiesToJob propsC10).2 ≠ "Active" ∧
    arrayMapD "OnHold" = "active" := by
  refine ⟨by rfl, by decide, by rfl⟩

/-- C10 (amended): a job pulled with an absent or empty Status select derives
status 'Active'; a non-empty unrecognized Status value is kept verbatim as the
derived status (entering the derived local key), and in every unrecognized
case the bucket map defaults to the active bucket, so the materialized or
reclassified entity lands in `active`. -/
theorem status_default_and_active_bucket_amended :
    (∀ props : List (String × NProp), alGet props "Status" = none →
      (notionPropertiesToJob props).2 = "Active") ∧
    (∀ props : List (String × NProp),
      alGet props "Status" = some (NProp.select none) →
      (notionPropertiesToJob props).2 = "Active") ∧
    (∀ props : List (String × NProp),
      alGet props "Status" = some (NProp.select (some "")) →
      (notionPropertiesToJob props).2 = "Active") ∧
    (∀ (props : List (String × NProp)) (s : String), s ≠ "" →
      alGet props "Status" = some (NProp.select (some s)) →
      (notionPropertiesToJob props).2 = s) ∧
    (∀ s : String, s ≠ "Active" → s ≠ "Skipped" → s ≠ "Closed" →
      arrayMapD s = "active") := by
  refine ⟨?_, ?_, ?_, ?_, ?_⟩
  · intro props h
    simp [notionPropertiesToJob, h, getNotionSelect, jsOrD]
  · intro props h
    simp [notionPropertiesToJob, h, getNotionSelect, jsOrD]
  · intro props h
    simp [notionPropertiesToJob, h, getNotionSelect, jsOrD, jsTruthyS]
  · intro props s hs h
    simp [notionPropertiesToJob, h, getNotionSelect, jsOrD, jsTruthyS, hs]
  · intro s h1 h2 h3
    simp [arrayMapD, arrayMap, h1, h2, h3]

/-- C10 (witness for the amended theorem). -/
theorem status_default_and_active_bucket_amended_witness :
    (notionPropertiesToJob [("Status", NProp.select (some "OnHold"))]).2 = "OnHold" ∧
    arrayMapD "Paused" = "active" :=
  ⟨status_default_and_active_bucket_amended.2.2.2.1 _ "OnHold" (by decide) rfl,
   status_default_and_active_bucket_amended.2.2.2.2 "Paused"
     (by decide) (by decide) (by decide)⟩

/-! ## Claim C3 -/

/-- C3: pushing is idempotent.  After a successful non-dry, non-full push of a
record (an update, or a create whose returned page id is truthy), the stored
entry carries the record's current hash and a truthy remote id, so a second
push of the same unchanged record takes the skip branch: no remote call is
made (the second run's call outcome `res2` is irrelevant) and the state is
untouched. -/
theorem push_idempotent_second_run_skips :
    (∀ (digest : String → String) (r : PageResult) (res2 : Except String PageResult)
        (m m1 : SyncMap) (job : Job) (status : String) (a : PushAction),
      pushJobStep digest false false (Except.ok r) m job status = (m1, a) →
      (a = PushAction.updatedRemote ∨ (a = PushAction.createdRemote ∧ r.id ≠ "")) →
      pushJobStep digest false false res2 m1 job status = (m1, PushAction.unchanged)) ∧
    (∀ (digest : String → String) (r : PageResult) (res2 : Except String PageResult)
        (m m1 : SyncMap) (task : Task) (a : PushAction),
      pushTaskStep digest false false (Except.ok r) m task = (m1, a) →
      (a = PushAction.updatedRemote ∨ (a = PushAction.createdRemote ∧ r.id ≠ "")) →
      pushTaskStep digest false false res2 m1 task = (m1, PushAction.unchanged)) := by
  constructor
  · intro digest r res2 m m1 job status a hstep hcase
    by_cases hskip : pushSkip false (alGet m.jobs (getJobLocalId job status))
        (hashItem digest (jobToJs job)) = true
    · simp only [pushJobStep, hskip, if_true] at hstep
      obtain ⟨hm, ha⟩ := Prod.mk.injEq .. ▸ hstep
      rcases hcase with hc | hc <;> rw [← ha] at hc <;> simp at hc
    · simp only [pushJobStep, hskip, if_false, Bool.false_eq_true,
        Bool.not_eq_true] at hstep
      by_cases hid : jsTruthyOpt ((alGet m.jobs (getJobLocalId job status)).bind
          (·.notionId)) = true
      · simp only [hid, if_true] at hstep
        obtain ⟨hm, ha⟩ := Prod.mk.injEq .. ▸ hstep
        simp only [pushJobStep, ← hm]
        rw [if_pos ?side]
        case side =>
          unfold pushSkip
          rw [alGet_alSet_self]
          simp [hid]
      · simp only [hid, if_false, Bool.false_eq_true] at hstep
        obtain ⟨hm, ha⟩ := Prod.mk.injEq .. ▸ hstep
        have hrid : r.id ≠ "" := by
          rcases hcase with hc | hc
          · rw [← ha] at hc; simp at hc
          · exact hc.2
        simp only [pushJobStep, ← hm]
        rw [if_pos ?side2]
        case side2 =>
          unfold pushSkip
          rw [alGet_alSet_self]
          simp [jsTruthyOpt, jsTruthyS, hrid]
  · intro digest r res2 m m1 task a hstep hcase
    by_cases hskip : pushSkip false (alGet m.tasks (jsOrD task.id task.task))
        (hashItem digest (taskToJs task)) = true
    · simp only [pushTaskStep, hskip, if_true] at hstep
      obtain ⟨hm, ha⟩ := Prod.mk.injEq .. ▸ hstep
      rcases hcase with hc | hc <;> rw [← ha] at hc <;> simp at hc
    · simp only [pushTaskStep, hskip, if_false, Bool.false_eq_true,
        Bool.not_eq_true] at hstep
      by_cases hid : jsTruthyOpt ((alGet m.tasks (jsOrD task.id task.task)).bind
          (·.notionId)) = true
      · simp only [hid, if_true] at hstep
        obtain ⟨hm, ha⟩ := Prod.mk.injEq .. ▸ hstep
        simp only [pushTaskStep, ← hm]
        rw [if_pos ?side3]
        case side3 =>
          unfold pushSkip
          rw [alGet_alSet_self]
          simp [hid]
      · simp only [hid, if_false, Bool.false_eq_true] at hstep
        obtain ⟨hm, ha⟩ := Prod.mk.injEq .. ▸ hstep
        have hrid : r.id ≠ "" := by
          rcases hcase with hc | hc
          · rw [← ha] at hc; simp at hc
          · exact hc.2
        simp only [pushTaskStep, ← hm]
        rw [if_pos ?side4]
        case side4 =>
          unfold pushSkip
          rw [alGet_alSet_self]
          simp [jsTruthyOpt, jsTruthyS, hrid]

def digestC3 : String → String := fun _ => "H"

def jobC3 : Job := { company := "Acme", role := "Eng" }

def mapC3 : SyncMap :=
  { lastSyncTime := some "2024-01-01T00:00:00.000Z", jobs := [], contacts := [],
    tasks := [], notionToLocal := [] }

def mapC3After : SyncMap :=
  { lastSyncTime := some "2024-01-01T00:00:00.000Z",
    jobs := [("Active:Acme:Eng",
      { notionId := some "pg1", localHash := some "H",
        notionLastEdited := some "2024-01-02T00:00:00.000Z",
        company := some "Acme", role := some "Eng" })],
    contacts := [], tasks := [],
    notionToLocal := [("pg1", ⟨"jobs", "Active:Acme:Eng"⟩)] }

/-- C3 (witness): a concrete first push creates `pg1`; the second push of the
unchanged job is skipped even though its would-be remote call would fail. -/
theorem push_idempotent_second_run_skips_witness :
    pushJobStep digestC3 false false (Except.error "down") mapC3After jobC3 "Active" =
      (mapC3After, PushAction.unchanged) :=
  push_idempotent_second_run_skips.1 digestC3 ⟨"pg1", "2024-01-02T00:00:00.000Z"⟩
    (Except.error "down") mapC3 mapC3After jobC3 "Active" PushAction.createdRemote
    (by decide) (Or.inr ⟨rfl, by decide⟩)

/-! ## Claim C8 -/

theorem retry_step_429 (rs : Nat → Resp) (a : Nat) (h429 : (rs a).status = 429)
    (hlt : a < MAX_RETRIES) :
    notionRequestWithRetry rs a =
      (retryWait (rs a) a :: (notionRequestWithRetry rs (a + 1)).1,
       (notionRequestWithRetry rs (a + 1)).2) := by
  conv_lhs => rw [notionRequestWithRetry]
  simp [h429, hlt]

theorem retry_stop (rs : Nat → Resp) (a : Nat)
    (h : ¬ ((rs a).status = 429 ∧ a < MAX_RETRIES)) :
    notionRequestWithRetry rs a =
      (if 400 ≤ (rs a).status then ([], Except.error "Notion API error")
       else ([], Except.ok (rs a))) := by
  conv_lhs => rw [notionRequestWithRetry]
  simp [h]

theorem retry_waits_bounded (n : Nat) :
    ∀ (rs : Nat → Resp) (a : Nat), MAX_RETRIES - a ≤ n →
      (notionRequestWithRetry rs a).1.length ≤ MAX_RETRIES - a := by
  induction n with
  | zero =>
      intro rs a h
      have hge : ¬ a < MAX_RETRIES := by omega
      rw [retry_stop rs a (fun hc => hge hc.2)]
      split_ifs <;> simp
  | succ n ih =>
      intro rs a h
      by_cases hc : (rs a).status = 429 ∧ a < MAX_RETRIES
      · rw [retry_step_429 rs a hc.1 hc.2]
        have := ih rs (a + 1) (by omega)
        have hlt := hc.2
        simp only [List.length_cons]
        omega
      · rw [retry_stop rs a hc]
        split_ifs <;> simp

/-- C8 (amended): a capacity-exceeded (429) response is retried with bounded,
linearly increasing backoff — the wait is `hint*1000 + (attempt+1)*500` ms,
where `hint` is the parsed `retry-after` header, defaulting to 1 — retries are
capped at `MAX_RETRIES = 3`, a 429 surviving the budget rejects with an error,
and any other `>= 400` status rejects immediately.  In the fetch path that
error aborts the paginated fetch: the failing page query is the last one
issued and the fetch returns the error itself, with no partial page list; in
the push loop a failed request is caught and counted for that record, and the
remaining records are still pushed. -/
theorem retry_bounded_linear_backoff_amended :
    (∀ rs : Nat → Resp, (∀ a, (rs a).status = 429) →
      notionRequestWithRetry rs 0 =
        ([retryWait (rs 0) 0, retryWait (rs 1) 1, retryWait (rs 2) 2],
         Except.error "Notion API error")) ∧
    (∀ (r : Resp) (a : Nat), r.retryAfter = none →
      retryWait r a = 1000 + (a + 1) * 500) ∧
    (∀ (s hint a : Nat),
      retryWait { status := s, retryAfter := some hint } a =
        hint * 1000 + (a + 1) * 500) ∧
    (∀ (rs : Nat → Resp) (a : Nat),
      (notionRequestWithRetry rs a).1.length ≤ MAX_RETRIES - a) ∧
    (∀ rs : Nat → Resp, (rs 0).status ≠ 429 →
      notionRequestWithRetry rs 0 =
        (if 400 ≤ (rs 0).status then ([], Except.error "Notion API error")
         else ([], Except.ok (rs 0)))) ∧
    (∀ (digest : String → String) (m : SyncMap) (job : Job) (status emsg : String)
        (tail : List (Job × String × Except String PageResult)),
      pushJobStep digest false false (Except.error emsg) m job status =
        (m, PushAction.errorCaught) →
      pushJobsRun digest false false m ((job, status, Except.error emsg) :: tail) =
        ((pushJobsRun digest false false m tail).1,
         PushAction.errorCaught :: (pushJobsRun digest false false m tail).2)) ∧
    (∀ (query : Option String → Except String QueryResult) (fuel : Nat)
        (cursor : Option String) (acc : List NotionPage) (e : String),
      query cursor = Except.error e →
      fetchPagesGo query (fuel + 1) cursor acc = ([cursor], Except.error e)) ∧
    (∀ (query : Option String → Except String QueryResult) (fuel : Nat)
        (e : String),
      query none = Except.error e →
      fetchChangedPages query (fuel + 1) = ([none], Except.error e)) := by
  refine ⟨?_, ?_, ?_, ?_, ?_, ?_, ?_, ?_⟩
  · intro rs hall
    rw [retry_step_429 rs 0 (hall 0) (by decide)]
    rw [retry_step_429 rs 1 (hall 1) (by decide)]
    rw [retry_step_429 rs 2 (hall 2) (by decide)]
    rw [retry_stop rs 3 (fun hc => absurd hc.2 (by decide))]
    simp [hall 3]
  · intro r a h; simp [retryWait, h]
  · intro s hint a; simp [retryWait]
  · intro rs a; exact retry_waits_bounded (MAX_RETRIES - a) rs a le_rfl
  · intro rs h; exact retry_stop rs 0 (by simp [h])
  · intro digest m job status emsg tail hstep
    simp [pushJobsRun, hstep]
  · intro query fuel cursor acc e hq
    simp [fetchPagesGo, hq]
  · intro query fuel e hq
    simp [fetchChangedPages, fetchPagesGo, hq]

def resp429 : Nat → Resp := fun _ => { status := 429 }

def digestC8 : String → String := fun _ => "H8"

def jobC8a : Job := { company := "Acme", role := "Eng" }

def jobC8b : Job := { company := "Bolt", role := "PM" }

def mapC8 : SyncMap :=
  { lastSyncTime := some "2024-01-01T00:00:00.000Z", jobs := [], contacts := [],
    tasks := [], notionToLocal := [] }

/-- C8 (counterexample): the default-hint retry schedule is 1500, 2000,
2500 ms — arithmetic, not geometric growth, so not exponential backoff; and a
request failure inside the push loop is caught rather than fatal: the record
after the failing one is still created. -/
theorem backoff_not_exponential_and_push_continues :
    (notionRequestWithRetry resp429 0).1 = [1500, 2000, 2500] ∧
    ¬ IsExponentialBackoff [1500, 2000, 2500] ∧
    (pushJobsRun digestC8 false false mapC8
      [(jobC8a, "Active", Except.error "boom"),
       (jobC8b, "Active", Except.ok ⟨"pg2", "2024-01-02T00:00:00.000Z"⟩)]).2 =
      [PushAction.errorCaught, PushAction.createdRemote] := by
  refine ⟨?_, fun h => absurd h.2 (by decide), by decide⟩
  rw [retry_step_429 resp429 0 rfl (by decide)]
  rw [retry_step_429 resp429 1 rfl (by decide)]
  rw [retry_step_429 resp429 2 rfl (by decide)]
  rw [retry_stop resp429 3 (fun hc => absurd hc.2 (by decide))]
  rfl

/-- C8 (witness for the amended theorem): the all-429 run with no header
sleeps the default schedule and rejects, and a fetch whose first page query
rejects aborts with that error after the one query. -/
theorem retry_bounded_linear_backoff_amended_witness :
    notionRequestWithRetry resp429 0 =
      ([1500, 2000, 2500], Except.error "Notion API error") ∧
    fetchChangedPages (fun _ => Except.error "Notion API error") 5 =
      ([none], Except.error "Notion API error") := by
  constructor
  · have h := retry_bounded_linear_backoff_amended.1 resp429 (fun a => rfl)
    simpa [retryWait, resp429] using h
  · exact retry_bounded_linear_backoff_amended.2.2.2.2.2.2.2
      (fun _ => Except.error "Notion API error") 4 "Notion API error" rfl

/-! ## Claims C1 / C4 / C6 -/

theorem entryLookup_some (rev : List (String × RevEntry)) (tyName : String)
    (tmap : List (String × SyncEntry)) (pageId k : String) (e : SyncEntry)
    (h : entryLookup rev tyName tmap pageId = some (k, e)) :
    alGet tmap k = some e ∧ jsTruthyS k = true := by
  unfold entryLookup at h
  cases hr : alGet rev pageId with
  | none => rw [hr] at h; simp at h
  | some r =>
      rw [hr] at h
      dsimp only at h
      by_cases hty : r.type = tyName
      · rw [if_pos hty] at h
        by_cases hk : jsTruthyS r.key = true
        · rw [if_pos hk] at h
          cases hm : alGet tmap r.key with
          | none => rw [hm] at h; simp at h
          | some e2 =>
              rw [hm] at h
              simp only [Option.some.injEq, Prod.mk.injEq] at h
              obtain ⟨hk1, hk2⟩ := h
              subst hk1; subst hk2
              exact ⟨hm, hk⟩
        · rw [if_neg hk] at h; simp at h
      · rw [if_neg hty] at h; simp at h

/-- C1: for a known item pulled in incremental mode whose remote edit time is
newer than the stored one while the current local hash differs from the stored
`localHash` (a conflict), the pull leaves the local collection untouched and
only acknowledges the remote timestamp: the entry's `notionLastEdited` is set
to the page's edit time while `notionId` and `localHash` are unchanged
(stated for the jobs and the contacts pull loops). -/
theorem conflict_local_wins_updates_only_remote_edit_time :
    (∀ (digest : String → String) (full dryRun : Bool) (today : String)
        (page : NotionPage) (m : SyncMap) (t : Tracker) (k : String)
        (e : SyncEntry) (t0 hh : String) (f : String × Nat × Job),
      jsTruthyOpt m.lastSyncTime = true →
      entryLookup m.notionToLocal "jobs" m.jobs page.id = some (k, e) →
      e.notionLastEdited = some t0 →
      strLtB t0 page.lastEditedTime = true →
      e.localHash = some hh →
      hh ≠ "" →
      findJobInTracker t k = some f →
      hashItem digest (jobToJs f.2.2) ≠ hh →
      pullJobStep digest full dryRun today page m t =
        ({ m with jobs := touchEdited m.jobs k page.lastEditedTime }, t,
          PullOutcome.skipped) ∧
      alGet (touchEdited m.jobs k page.lastEditedTime) k =
        some { e with notionLastEdited := some page.lastEditedTime } ∧
      (∀ k2, k2 ≠ k →
        alGet (touchEdited m.jobs k page.lastEditedTime) k2 = alGet m.jobs k2)) ∧
    (∀ (digest : String → String) (full dryRun : Bool) (today : String)
        (page : NotionPage) (m : SyncMap) (contacts : List Contact) (k : String)
        (e : SyncEntry) (t0 hh : String) (c0 : Contact),
      jsTruthyOpt m.lastSyncTime = true →
      entryLookup m.notionToLocal "contacts" m.contacts page.id = some (k, e) →
      e.notionLastEdited = some t0 →
      strLtB t0 page.lastEditedTime = true →
      e.localHash = some hh →
      hh ≠ "" →
      contacts.find? (fun c => contactKey c == k) = some c0 →
      hashItem digest (contactToJs c0) ≠ hh →
      pullContactStep digest full dryRun today page m contacts =
        ({ m with contacts := touchEdited m.contacts k page.lastEditedTime },
          contacts, PullOutcome.skipped) ∧
      alGet (touchEdited m.contacts k page.lastEditedTime) k =
        some { e with notionLastEdited := some page.lastEditedTime } ∧
      (∀ k2, k2 ≠ k →
        alGet (touchEdited m.contacts k page.lastEditedTime) k2 =
          alGet m.contacts k2)) := by
  constructor
  · intro digest full dryRun today page m t k e t0 hh f hbase hlook hst hlt hhash
      hht hfound hdiff
    have hch : notionChangedB e.notionLastEdited page.lastEditedTime = true := by
      rw [hst]
      unfold notionChangedB
      by_cases h0 : jsTruthyS t0 = true
      · simp [jsTruthyOpt, h0, hlt]
      · simp [jsTruthyOpt, h0]
    have hcf : jobConflict digest t k e = true := by
      unfold jobConflict
      rw [hfound, hhash]
      simp [jsTruthyOpt, jsTruthyS, hht, hdiff]
    refine ⟨?_, ?_, ?_⟩
    · simp only [pullJobStep, hlook]
      rw [if_neg (by simp [hbase]), if_neg (by simp [hch]), if_pos hcf]
    · have hget : alGet m.jobs k = some e :=
        (entryLookup_some m.notionToLocal "jobs" m.jobs page.id k e hlook).1
      unfold touchEdited
      rw [alGet_alUpdate_self, hget]
      rfl
    · intro k2 hne
      unfold touchEdited
      exact alGet_alUpdate_ne m.jobs k k2 _ hne
  · intro digest full dryRun today page m contacts k e t0 hh c0 hbase hlook hst
      hlt hhash hht hfound hdiff
    have hch : notionChangedB e.notionLastEdited page.lastEditedTime = true := by
      rw [hst]
      unfold notionChangedB
      by_cases h0 : jsTruthyS t0 = true
      · simp [jsTruthyOpt, h0, hlt]
      · simp [jsTruthyOpt, h0]
    have hcf : contactConflict digest (contacts.find? (fun c => contactKey c == k)) e
        = true := by
      unfold contactConflict
      rw [hfound, hhash]
      simp [jsTruthyOpt, jsTruthyS, hht, hdiff]
    refine ⟨?_, ?_, ?_⟩
    · simp only [pullContactStep, hlook]
      rw [if_neg (by simp [hbase]), if_neg (by simp [hch]), if_pos hcf]
    · have hget : alGet m.contacts k = some e :=
        (entryLookup_some m.notionToLocal "contacts" m.contacts page.id k e hlook).1
      unfold touchEdited
      rw [alGet_alUpdate_self, hget]
      rfl
    · intro k2 hne
      unfold touchEdited
      exact alGet_alUpdate_ne m.contacts k k2 _ hne

def digestC1 : String → String := fun _ => "HX"

def jobC1 : Job := { company := "Acme", role := "Eng" }

def entryC1 : SyncEntry :=
  { notionId := some "p1", localHash := some "HY",
    notionLastEdited := some "2024-01-02T00:00:00.000Z" }

def mapC1 : SyncMap :=
  { lastSyncTime := some "2024-01-02T01:00:00.000Z",
    jobs := [("Active:Acme:Eng", entryC1)], contacts := [], tasks := [],
    notionToLocal := [("p1", ⟨"jobs", "Active:Acme:Eng"⟩)] }

def trackerC1 : Tracker := { active := [jobC1], skipped := [], closed := [] }

def pageC1 : NotionPage :=
  { id := "p1", lastEditedTime := "2024-01-03T00:00:00.000Z",
    properties := [("Role", .title ["Eng"]), ("Company", .richText ["Acme"]),
                   ("Status", .select (some "Active"))] }

/-- C1 (witness): a concrete conflicting pull only touches the entry's
timestamp. -/
theorem conflict_local_wins_witness :
    pullJobStep digestC1 false false "2024-01-05" pageC1 mapC1 trackerC1 =
      ({ mapC1 with
        jobs := touchEdited mapC1.jobs "Active:Acme:Eng" "2024-01-03T00:00:00.000Z" },
       trackerC1, PullOutcome.skipped) :=
  (conflict_local_wins_updates_only_remote_edit_time.1 digestC1 false false
    "2024-01-05" pageC1 mapC1 trackerC1 "Active:Acme:Eng" entryC1
    "2024-01-02T00:00:00.000Z" "HY" ("active", 0, jobC1) rfl (by decide) rfl
    (by decide) rfl (by decide) (by decide) (by decide)).1

/-- C4: on a run with a null watermark the pull phase never mutates the local
collections: a fetched page with a known mapped local key only records the
remote edit time into the existing Sync State Entry, and a page without a
mapped entry changes nothing at all — no new local entity, no new Sync State
Entry, no new reverse-index entry (stated for all three pull loops). -/
theorem baseline_pull_never_mutates_local :
    (∀ (digest : String → String) (full dryRun : Bool) (today : String)
        (page : NotionPage) (m : SyncMap) (t : Tracker),
      jsTruthyOpt m.lastSyncTime = false →
      pullJobStep digest full dryRun today page m t =
        ((match entryLookup m.notionToLocal "jobs" m.jobs page.id with
          | some (k, _) =>
              { m with jobs := touchEdited m.jobs k page.lastEditedTime }
          | none => m), t, PullOutcome.skipped)) ∧
    (∀ (digest : String → String) (full dryRun : Bool) (today : String)
        (page : NotionPage) (m : SyncMap) (contacts : List Contact),
      jsTruthyOpt m.lastSyncTime = false →
      pullContactStep digest full dryRun today page m contacts =
        ((match entryLookup m.notionToLocal "contacts" m.contacts page.id with
          | some (k, _) =>
              { m with contacts := touchEdited m.contacts k page.lastEditedTime }
          | none => m), contacts, PullOutcome.skipped)) ∧
    (∀ (digest : String → String) (full dryRun : Bool) (today genId : String)
        (page : NotionPage) (m : SyncMap) (tasks : List Task),
      jsTruthyOpt m.lastSyncTime = false →
      pullTaskStep digest full dryRun today genId page m tasks =
        ((match entryLookup m.notionToLocal "tasks" m.tasks page.id with
          | some (k, _) =>
              { m with tasks := touchEdited m.tasks k page.lastEditedTime }
          | none => m), tasks, PullOutcome.skipped)) := by
  refine ⟨?_, ?_, ?_⟩
  · intro digest full dryRun today page m t hbase
    cases hl : entryLookup m.notionToLocal "jobs" m.jobs page.id with
    | some ke =>
        cases ke with
        | mk k e =>
            simp only [pullJobStep, hl]
            rw [if_pos (by simp [hbase])]
    | none =>
        simp only [pullJobStep, hl]
        rw [if_pos (by simp [hbase])]
  · intro digest full dryRun today page m contacts hbase
    cases hl : entryLookup m.notionToLocal "contacts" m.contacts page.id with
    | some ke =>
        cases ke with
        | mk k e =>
            simp only [pullContactStep, hl]
            rw [if_pos (by simp [hbase])]
    | none =>
        simp only [pullContactStep, hl]
        rw [if_pos (by simp [hbase])]
  · intro digest full dryRun today genId page m tasks hbase
    cases hl : entryLookup m.notionToLocal "tasks" m.tasks page.id with
    | some ke =>
        cases ke with
        | mk k e =>
            simp only [pullTaskStep, hl]
            rw [if_pos (by simp [hbase])]
    | none =>
        simp only [pullTaskStep, hl]
        rw [if_pos (by simp [hbase])]

def digestC4 : String → String := fun _ => "H4"

def jobC4 : Job := { company := "Acme", role := "Eng" }

def entryC4 : SyncEntry := { notionId := some "p1" }

def mapC4 : SyncMap :=
  { lastSyncTime := none, jobs := [("Active:Acme:Eng", entryC4)], contacts := [],
    tasks := [], notionToLocal := [("p1", ⟨"jobs", "Active:Acme:Eng"⟩)] }

def trackerC4 : Tracker := { active := [jobC4], skipped := [], closed := [] }

/-- C4 (witness): a concrete baseline pull with a known key only records the
remote timestamp. -/
theorem baseline_pull_never_mutates_local_witness :
    pullJobStep digestC4 false false "2024-01-05" pageC1 mapC4 trackerC4 =
      ({ mapC4 with
        jobs := touchEdited mapC4.jobs "Active:Acme:Eng" "2024-01-03T00:00:00.000Z" },
       trackerC4, PullOutcome.skipped) := by
  have h := baseline_pull_never_mutates_local.1 digestC4 false false "2024-01-05"
    pageC1 mapC4 trackerC4 rfl
  exact h

/-- C6: when a pulled remote job's derived local key differs from the stored
key and only the remote side changed, the entity is removed from its old
bucket and inserted into the bucket implied by the remote status exactly once,
the old Sync State Entry key is deleted and replaced by an entry under the new
key carrying the same remote id, and the reverse index maps the page id to the
new key while every other remote id's mapping is untouched. -/
theorem reclassification_moves_once_and_rewrites_maps :
    ∀ (digest : String → String) (full : Bool) (today : String)
      (page : NotionPage) (m : SyncMap) (t : Tracker) (k : String)
      (e : SyncEntry) (hh : String) (arr : String) (i : Nat) (j0 nj : Job)
      (st nk : String),
      jsTruthyOpt m.lastSyncTime = true →
      entryLookup m.notionToLocal "jobs" m.jobs page.id = some (k, e) →
      notionChangedB e.notionLastEdited page.lastEditedTime = true →
      e.localHash = some hh →
      findJobInTracker t k = some (arr, i, j0) →
      hashItem digest (jobToJs j0) = hh →
      notionPropertiesToJob page.properties = (nj, st) →
      getJobLocalId nj st = nk →
      k ≠ nk →
      pullJobStep digest full false today page m t =
        reclassifyJob digest page.id page.lastEditedTime nj st nk k m t ∧
      (pullJobStep digest full false today page m t).2.1 =
        bucketPush (removeFromBucket t arr i) (arrayMapD st)
          (relocatedJob nj j0.folder st) ∧
      alGet (pullJobStep digest full false today page m t).1.jobs k = none ∧
      alGet (pullJobStep digest full false today page m t).1.jobs nk =
        some { notionId := some page.id,
               localHash :=
                 some (hashItem digest (jobToJs (relocatedJob nj j0.folder st))),
               notionLastEdited := some page.lastEditedTime,
               company := some nj.company, role := some nj.role } ∧
      alGet (pullJobStep digest full false today page m t).1.notionToLocal page.id =
        some ⟨"jobs", nk⟩ ∧
      (∀ nid, nid ≠ page.id →
        alGet (pullJobStep digest full false today page m t).1.notionToLocal nid =
          alGet m.notionToLocal nid) ∧
      (∀ k2, k2 ≠ k → k2 ≠ nk →
        alGet (pullJobStep digest full false today page m t).1.jobs k2 =
          alGet m.jobs k2) := by
  intro digest full today page m t k e hh arr i j0 nj st nk hbase hlook hch hhash
    hfound hhq hpr hkey hne
  have hcf : jobConflict digest t k e = false := by
    unfold jobConflict
    rw [hfound, hhash]
    simp [hhq]
  have hmain : pullJobStep digest full false today page m t =
      reclassifyJob digest page.id page.lastEditedTime nj st nk k m t := by
    simp only [pullJobStep, hlook, hpr]
    rw [if_neg (by simp [hbase]), if_neg (by simp [hch]), if_neg (by simp [hcf]),
        if_neg (by simp), if_pos (by rw [hkey]; exact hne)]
    rw [hkey]
  have hrec : reclassifyJob digest page.id page.lastEditedTime nj st nk k m t =
      ({ m with
          jobs := alSet (alErase m.jobs k) nk
            { notionId := some page.id,
              localHash :=
                some (hashItem digest (jobToJs (relocatedJob nj j0.folder st))),
              notionLastEdited := some page.lastEditedTime,
              company := some nj.company, role := some nj.role },
          notionToLocal := alSet m.notionToLocal page.id ⟨"jobs", nk⟩ },
       bucketPush (removeFromBucket t arr i) (arrayMapD st)
         (relocatedJob nj j0.folder st),
       PullOutcome.pulled) := by
    simp only [reclassifyJob, hfound]
  refine ⟨hmain, ?_, ?_, ?_, ?_, ?_, ?_⟩
  · rw [hmain, hrec]
  · rw [hmain, hrec]
    simp only
    rw [alGet_alSet_ne _ _ _ _ hne, alGet_alErase_self]
  · rw [hmain, hrec]
    simp only
    rw [alGet_alSet_self]
  · rw [hmain, hrec]
    simp only
    rw [alGet_alSet_self]
  · intro nid hnid
    rw [hmain, hrec]
    simp only
    rw [alGet_alSet_ne _ _ _ _ hnid]
  · intro k2 hk2k hk2nk
    rw [hmain, hrec]
    simp only
    rw [alGet_alSet_ne _ _ _ _ hk2nk, alGet_alErase_ne _ _ _ hk2k]

def digestC6 : String → String := fun _ => "HY"

def jobC6 : Job := { company := "Acme", role := "Eng" }

def njC6 : Job := { company := "Acme", role := "Eng" }

def entryC6 : SyncEntry :=
  { notionId := some "p1", localHash := some "HY",
    notionLastEdited := some "2024-01-02T00:00:00.000Z" }

def mapC6 : SyncMap :=
  { lastSyncTime := some "2024-01-02T01:00:00.000Z",
    jobs := [("Active:Acme:Eng", entryC6)], contacts := [], tasks := [],
    notionToLocal := [("p1", ⟨"jobs", "Active:Acme:Eng"⟩)] }

def trackerC6 : Tracker := { active := [jobC6], skipped := [], closed := [] }

def pageC6 : NotionPage :=
  { id := "p1", lastEditedTime := "2024-01-03T00:00:00.000Z",
    properties := [("Role", .title ["Eng"]), ("Company", .richText ["Acme"]),
                   ("Status", .select (some "Closed"))] }

/-- C6 (witness): a concrete remote-only status change rewrites the reverse
index to the new composite key. -/
theorem reclassification_witness :
    alGet (pullJobStep digestC6 false false "2024-01-05" pageC6 mapC6
      trackerC6).1.notionToLocal "p1" = some ⟨"jobs", "Closed:Acme:Eng"⟩ :=
  (reclassification_moves_once_and_rewrites_maps digestC6 false "2024-01-05"
    pageC6 mapC6 trackerC6 "Active:Acme:Eng" entryC6 "HY" "active" 0 jobC6 njC6
    "Closed" "Closed:Acme:Eng" rfl (by decide) (by decide) rfl (by decide)
    (by decide) (by decide) rfl (by decide)).2.2.2.2.1

end NotionSync
